import Mathlib

/-!
# Quran reader (script.js): storage, playback and search

A shallow embedding of `src/script.js`.

* `JSON` models the two platform functions the script relies on for its local
  store, `JSON.stringify` and `JSON.parse`, at the level of characters.
* `localStorage` is a finite map from string keys to string values; a write may
  be refused (full or disabled store), in which case `setItem` throws.
* Every event handler of the script is a function from the application state
  (plus what the surroundings answered during the handler) to the next state and
  the list of externally visible effects it caused, in order.
* `playAyah` is given in two parts, up to its `await` and from there on, so that
  other handlers can run in between; `playAyah` itself is the run in one piece.
-/

namespace JSON

/-- A JSON value.  Numbers are restricted to integers (chapter and verse
numbers); object members are kept in written order. -/
inductive JVal where
  | null : JVal
  | bool (b : Bool) : JVal
  | num (n : Int) : JVal
  | str (s : String) : JVal
  | arr (xs : List JVal) : JVal
  | obj (ms : List (String × JVal)) : JVal

/-! ## Serialisation: `JSON.stringify(v)` and `JSON.stringify(v, null, 2)` -/

/-- Lower-case hexadecimal digit of a number below sixteen. -/
def hexDigit (n : Nat) : Char :=
  if n < 10 then Char.ofNat (48 + n) else Char.ofNat (87 + n)

/-- The text `JSON.stringify` emits for one character of a string. -/
def quoteChar (c : Char) : List Char :=
  if c = '"' then ['\\', '"']
  else if c = '\\' then ['\\', '\\']
  else if c = '\x08' then ['\\', 'b']
  else if c = '\x0c' then ['\\', 'f']
  else if c = '\n' then ['\\', 'n']
  else if c = '\r' then ['\\', 'r']
  else if c = '\t' then ['\\', 't']
  else if c.toNat < 32 then
    ['\\', 'u', '0', '0', hexDigit (c.toNat / 16), hexDigit (c.toNat % 16)]
  else [c]

/-- The escaped body of a string literal, without the surrounding quotes. -/
def quoteBody : List Char → List Char
  | [] => []
  | c :: cs => quoteChar c ++ quoteBody cs

/-- A quoted string literal. -/
def quote (s : String) : List Char :=
  '"' :: (quoteBody s.data ++ ['"'])

/-- Decimal text of an integer. -/
def renderInt (n : Int) : List Char :=
  if n < 0 then '-' :: Nat.toDigits 10 n.natAbs else Nat.toDigits 10 n.natAbs

/-- Line break and indentation emitted in front of an item at nesting depth
`level` when an indent of two spaces is requested; nothing in compact mode. -/
def indent (pretty : Bool) (level : Nat) : List Char :=
  if pretty then '\n' :: List.replicate (2 * level) ' ' else []

/-- Separator between a member name and its value. -/
def colon (pretty : Bool) : List Char :=
  if pretty then [':', ' '] else [':']

/-- Text of a value at nesting depth `level`. -/
def render (pretty : Bool) (level : Nat) : JVal → List Char
  | .null => ['n', 'u', 'l', 'l']
  | .bool true => ['t', 'r', 'u', 'e']
  | .bool false => ['f', 'a', 'l', 's', 'e']
  | .num n => renderInt n
  | .str s => quote s
  | .arr [] => ['[', ']']
  | .arr (x :: xs) =>
    '[' :: (indent pretty (level + 1) ++ (render pretty (level + 1) x ++
      (renderElems pretty (level + 1) xs ++ (indent pretty level ++ [']']))))
  | .obj [] => ['\x7b', '\x7d']
  | .obj ((k, v) :: ms) =>
    '\x7b' :: (indent pretty (level + 1) ++ (quote k ++ (colon pretty ++
      (render pretty (level + 1) v ++
        (renderMembers pretty (level + 1) ms ++ (indent pretty level ++ ['\x7d']))))))
where
  /-- Text of the items after the first one, each led by a comma. -/
  renderElems (pretty : Bool) (level : Nat) : List JVal → List Char
    | [] => []
    | x :: xs =>
      ',' :: (indent pretty level ++ (render pretty level x ++ renderElems pretty level xs))
  /-- Text of the members after the first one, each led by a comma. -/
  renderMembers (pretty : Bool) (level : Nat) : List (String × JVal) → List Char
    | [] => []
    | (k, v) :: ms =>
      ',' :: (indent pretty level ++ (quote k ++ (colon pretty ++
        (render pretty level v ++ renderMembers pretty level ms))))

/-- `JSON.stringify(v)`: the compact text. -/
def stringify (v : JVal) : String := String.mk (render false 0 v)

/-- `JSON.stringify(v, null, 2)`: the text indented by two spaces per level. -/
def stringifyIndent2 (v : JVal) : String := String.mk (render true 0 v)

/-! ## Parsing: `JSON.parse(text)` -/

/-- JSON white space. -/
def isWs (c : Char) : Bool := c = ' ' || c = '\n' || c = '\r' || c = '\t'

/-- Drop leading white space. -/
def skipWs : List Char → List Char
  | [] => []
  | c :: cs => if isWs c then skipWs cs else c :: cs

/-- Value of a hexadecimal digit. -/
def hexVal (c : Char) : Option Nat :=
  if 48 ≤ c.toNat ∧ c.toNat ≤ 57 then some (c.toNat - 48)
  else if 97 ≤ c.toNat ∧ c.toNat ≤ 102 then some (c.toNat - 87)
  else if 65 ≤ c.toNat ∧ c.toNat ≤ 70 then some (c.toNat - 55)
  else none

/-- Code unit written as four hexadecimal digits. -/
def hex4 (a b c d : Char) : Option Nat :=
  match hexVal a, hexVal b, hexVal c, hexVal d with
  | some x, some y, some z, some w => some (((x * 16 + y) * 16 + z) * 16 + w)
  | _, _, _, _ => none

/-- Character named by a one-letter escape. -/
def unescape (e : Char) : Option Char :=
  if e = '"' then some '"'
  else if e = '\\' then some '\\'
  else if e = '/' then some '/'
  else if e = 'b' then some '\x08'
  else if e = 'f' then some '\x0c'
  else if e = 'n' then some '\n'
  else if e = 'r' then some '\r'
  else if e = 't' then some '\t'
  else none

/-- Read a string literal after its opening quote; `acc` holds the characters
read so far, latest first.  A `\u` escape naming a surrogate code unit has no
counterpart among the characters of the model and is rejected. -/
def parseStrBody : List Char → List Char → Option (String × List Char)
  | [], _ => none
  | c :: cs, acc =>
    if c = '"' then some (String.mk acc.reverse, cs)
    else if c = '\\' then
      match cs with
      | [] => none
      | e :: rest =>
        if e = 'u' then
          match rest with
          | a :: b :: c3 :: d :: rest4 =>
            match hex4 a b c3 d with
            | some n =>
              if 0xd800 ≤ n ∧ n ≤ 0xdfff then none
              else parseStrBody rest4 (Char.ofNat n :: acc)
            | none => none
          | _ => none
        else
          match unescape e with
          | some ch => parseStrBody rest (ch :: acc)
          | none => none
    else if c.toNat < 32 then none
    else parseStrBody cs (c :: acc)

/-- Read a run of decimal digits, accumulating their value. -/
def parseDigits : List Char → Nat → Nat × List Char
  | [], n => (n, [])
  | c :: cs, n =>
    if c.isDigit then parseDigits cs (10 * n + (c.toNat - 48)) else (n, c :: cs)

/-- Read an unsigned integer literal: a lone `0`, or digits not led by `0`. -/
def parseNat : List Char → Option (Nat × List Char)
  | [] => none
  | c :: cs =>
    if c = '0' then some (0, cs)
    else if c.isDigit then some (parseDigits (c :: cs) 0)
    else none

/-- Whether the text continues a number with a fraction or an exponent. -/
def startsFraction : List Char → Bool
  | [] => false
  | c :: _ => c = '.' || c = 'e' || c = 'E'

/-- Read an integer literal.  Literals with a fraction or an exponent lie
outside the integer model of numbers and are rejected. -/
def parseNumber : List Char → Option (Int × List Char)
  | [] => none
  | c :: cs =>
    if c = '-' then
      match parseNat cs with
      | some (n, r) => if startsFraction r then none else some (-(n : Int), r)
      | none => none
    else
      match parseNat (c :: cs) with
      | some (n, r) => if startsFraction r then none else some ((n : Int), r)
      | none => none

mutual
/-- Read one value, skipping white space in front of it. -/
def parseValue : Nat → List Char → Option (JVal × List Char)
  | 0, _ => none
  | fuel + 1, cs =>
    match skipWs cs with
    | [] => none
    | c :: r =>
      if c = '[' then
        match skipWs r with
        | [] => none
        | c2 :: r2 =>
          if c2 = ']' then some (.arr [], r2) else parseElems fuel (c2 :: r2) []
      else if c = '\x7b' then
        match skipWs r with
        | [] => none
        | c2 :: r2 =>
          if c2 = '\x7d' then some (.obj [], r2) else parseMembers fuel (c2 :: r2) []
      else if c = '"' then
        match parseStrBody r [] with
        | some (s, r2) => some (.str s, r2)
        | none => none
      else if c = 't' then
        match r with
        | 'r' :: 'u' :: 'e' :: r2 => some (.bool true, r2)
        | _ => none
      else if c = 'f' then
        match r with
        | 'a' :: 'l' :: 's' :: 'e' :: r2 => some (.bool false, r2)
        | _ => none
      else if c = 'n' then
        match r with
        | 'u' :: 'l' :: 'l' :: r2 => some (.null, r2)
        | _ => none
      else
        match parseNumber (c :: r) with
        | some (n, r2) => some (.num n, r2)
        | none => none
/-- Read the items of an array up to its closing bracket; `acc` holds the
items read so far, latest first. -/
def parseElems : Nat → List Char → List JVal → Option (JVal × List Char)
  | 0, _, _ => none
  | fuel + 1, cs, acc =>
    match parseValue fuel cs with
    | none => none
    | some (v, r) =>
      match skipWs r with
      | [] => none
      | c :: r2 =>
        if c = ',' then parseElems fuel r2 (v :: acc)
        else if c = ']' then some (.arr (v :: acc).reverse, r2)
        else none
/-- Read the members of an object up to its closing brace; `acc` holds the
members read so far, latest first. -/
def parseMembers : Nat → List Char → List (String × JVal) → Option (JVal × List Char)
  | 0, _, _ => none
  | fuel + 1, cs, acc =>
    match skipWs cs with
    | [] => none
    | q :: r =>
      if q = '"' then
        match parseStrBody r [] with
        | none => none
        | some (k, r2) =>
          match skipWs r2 with
          | [] => none
          | c :: r3 =>
            if c = ':' then
              match parseValue fuel r3 with
              | none => none
              | some (v, r4) =>
                match skipWs r4 with
                | [] => none
                | c2 :: r5 =>
                  if c2 = ',' then parseMembers fuel r5 ((k, v) :: acc)
                  else if c2 = '\x7d' then some (.obj ((k, v) :: acc).reverse, r5)
                  else none
            else none
      else none
end

/-- `JSON.parse(text)`: the value written in `text`, or `none` where
`JSON.parse` throws a `SyntaxError`.  Every step of the reader consumes a
character, so the length of the text bounds the depth of the recursion. -/
def parse (text : String) : Option JVal :=
  match parseValue (text.length + 1) text.data with
  | none => none
  | some (v, r) => if skipWs r = [] then some v else none

/-- JavaScript truthiness of a parsed value. -/
def JVal.truthy : JVal → Bool
  | .null => false
  | .bool b => b
  | .num n => n ≠ 0
  | .str s => s ≠ ""
  | .arr _ => true
  | .obj _ => true

/-- Property read `v[k]` on a parsed value: the last member named `k` of an
object, `none` (undefined) otherwise. -/
def JVal.get : JVal → String → Option JVal
  | .obj ms, k => List.lookup k ms.reverse
  | _, _ => none

end JSON

namespace Script

open JSON

/-! ## Data model -/

/-- One element of `surahObj.ayahs`. -/
structure Verse where
  numberInSurah : Int
  text : String
  translation : String
  deriving DecidableEq, Repr

/-- The chapter object `surahObj` kept in `state.currentSurah` and in the cache. -/
structure Surah where
  number : Int
  name : String
  englishName : String
  ayahs : List Verse
  deriving DecidableEq, Repr

/-- One element of `data.ayahs` in the original-text response. -/
structure TextAyah where
  numberInSurah : Int
  text : String
  deriving DecidableEq, Repr

/-- The `data` payload of the original-text response (`arabicJson.data`). -/
structure TextResponse where
  number : Int
  name : String
  englishName : String
  ayahs : List TextAyah
  deriving DecidableEq, Repr

/-- One element of `data.ayahs` in the translation response. -/
structure TranslationAyah where
  text : String
  deriving DecidableEq, Repr

/-- The `data` payload of the translation response (`transJson.data`). -/
structure TranslationResponse where
  ayahs : List TranslationAyah
  deriving DecidableEq, Repr

/-- One element of `state.surahs`, the chapter index. -/
structure SurahInfo where
  number : Int
  name : String
  englishName : String
  deriving DecidableEq, Repr

/-- The array `state.currentAudioList` with the two tags the script attaches to
it.  An entry without a URL is the empty string; a list that was never fetched
or whose fetch failed carries no tags. -/
structure AudioList where
  urls : List String
  surah : Option Int
  reciter : Option String
  deriving DecidableEq, Repr

/-- One row of the verse panel `dom.verses`.  `actions` holds the index bound
to the play button and the tag bound to the bookmark button; rows written by
`search` have neither. -/
structure Row where
  verse : Verse
  actions : Option (Nat × String)
  deriving DecidableEq, Repr

/-- Content of the verse panel `dom.verses`. -/
inductive VersesView where
  | message (msg : String)
  | rows (rs : List Row)
  deriving DecidableEq, Repr

/-- The local store: `localStorage` as a finite map, latest write first. -/
abbrev Storage := List (String × String)

/-- `localStorage.getItem(key)`; `none` is JavaScript `null`. -/
def Storage.getItem (st : Storage) (key : String) : Option String :=
  List.lookup key st

/-- The store after a write of `value` under `key` went through. -/
def Storage.insert (st : Storage) (key value : String) : Storage :=
  (key, value) :: st.filter (fun e => e.1 ≠ key)

/-- `localStorage.setItem(key, value)`.  A full or disabled store refuses the
write and `setItem` throws: the result is `none` then.  Whether the store takes
the write is for the surroundings to say (`writable`). -/
def Storage.setItem (st : Storage) (key value : String) (writable : Bool) : Option Storage :=
  if writable then some (st.insert key value) else none

/-- `localStorage.clear()`. -/
def Storage.clear (_ : Storage) : Storage := []

/-- What a handler makes happen outside the script's own state, in order. -/
inductive Effect where
  | fetchIndex
  | fetchText (n : Int)
  | fetchTranslation (n : Int)
  | fetchAudio (n : Int) (reciter : String)
  | precache (url : String)
  | alert (msg : String)
  | audioPlay (src : String)
  | audioPause
  | deleteCache (name : String)
  | reload
  | download (fileName content : String)
  deriving DecidableEq, Repr

/-- What the surroundings answer while one handler runs: the responses of the
requests it may issue (`none` when the request or its decoding fails), whether
the browser offers the Cache API and which caches exist, whether the browser
refuses to start playback, and whether the local store takes a write. -/
structure Env where
  index : Option (List SurahInfo)
  text : Option TextResponse
  translation : Option TranslationResponse
  audio : Option (List String)
  hasCaches : Bool
  cacheNames : List String
  playBlocked : Bool
  storageWritable : Bool
  deriving Repr

/-- The script's `state` object, the two panels of the page the script reads
back or filters (`dom.verses`, the rows of `dom.surahList`) and the local store.
Texts the script only writes (title, button labels, row highlight, bookmark
panel) are left out. -/
structure State where
  surahs : List SurahInfo
  currentSurah : Option Surah
  currentAyahIndex : Int
  audioSrc : String
  currentReciter : String
  currentAudioList : AudioList
  playing : Bool
  verses : VersesView
  surahRowHidden : List Bool
  localStorage : Storage
  deriving DecidableEq, Repr

/-! ## Chapter objects in the cache -/

/-- Text of a number inside a template literal. -/
def numText (n : Int) : String := String.mk (renderInt n)

/-- The value `JSON.stringify` sees for a verse object. -/
def Verse.toJVal (a : Verse) : JVal :=
  .obj [("numberInSurah", .num a.numberInSurah), ("text", .str a.text),
    ("translation", .str a.translation)]

/-- The value `JSON.stringify` sees for `surahObj`. -/
def Surah.toJVal (s : Surah) : JVal :=
  .obj [("number", .num s.number), ("name", .str s.name),
    ("englishName", .str s.englishName), ("ayahs", .arr (s.ayahs.map Verse.toJVal))]

/-- A parsed value read as a verse object. -/
def Verse.ofJVal (v : JVal) : Option Verse :=
  match v.get "numberInSurah", v.get "text", v.get "translation" with
  | some (.num n), some (.str t), some (.str tr) => some ⟨n, t, tr⟩
  | _, _, _ => none

/-- A list of parsed values read as verse objects. -/
def versesOfJVals : List JVal → Option (List Verse)
  | [] => some []
  | v :: vs =>
    match Verse.ofJVal v, versesOfJVals vs with
    | some a, some as => some (a :: as)
    | _, _ => none

/-- A parsed value read as a chapter object. -/
def Surah.ofJVal (v : JVal) : Option Surah :=
  match v.get "number", v.get "name", v.get "englishName", v.get "ayahs" with
  | some (.num n), some (.str nm), some (.str en), some (.arr vs) =>
    match versesOfJVals vs with
    | some as => some ⟨n, nm, en, as⟩
    | none => none
  | _, _, _, _ => none

/-- The cache key of a chapter. -/
def cacheKey (number : Int) : String := "og_surah_" ++ numText number ++ "_v1"

/-- Outcome of the cache lookup at the start of `openSurah`. -/
inductive CacheRead where
  | miss
  | hit (s : Surah)
  | foreign
  deriving DecidableEq, Repr

/-- The cache lookup of `openSurah`: an absent or empty entry, an entry that
does not parse and an entry that parses to a falsy value are misses.  A truthy
entry that is not a chapter object is `foreign`: the script would keep it as the
open chapter, which the typed state cannot express.  An entry that only the
reader of the model rejects (a number with a fraction or exponent, a surrogate
escape) counts as a miss here although `JSON.parse` takes it; the script never
writes such an entry. -/
def readCache (store : Storage) (number : Int) : CacheRead :=
  match store.getItem (cacheKey number) with
  | none => .miss
  | some raw =>
    if raw = "" then .miss
    else
      match JSON.parse raw with
      | none => .miss
      | some v =>
        if v.truthy then
          match Surah.ofJVal v with
          | some s => .hit s
          | none => .foreign
        else .miss

/-! ## Opening a chapter -/

/-- The merge inside `openSurah`: `surah.ayahs.map((a, idx) => ...)`, started
at index `idx`. -/
def mergeAyahs (translation : List TranslationAyah) : Nat → List TextAyah → List Verse
  | _, [] => []
  | idx, a :: rest =>
    { numberInSurah := a.numberInSurah
      text := a.text
      translation :=
        match translation[idx]? with
        | some t => if t.text ≠ "" then t.text else ""
        | none => "" } :: mergeAyahs translation (idx + 1) rest

/-- The chapter object built on a cache miss. -/
def buildSurah (text : TextResponse) (translation : TranslationResponse) : Surah :=
  { number := text.number, name := text.name, englishName := text.englishName
    ayahs := mergeAyahs translation.ayahs 0 text.ayahs }

/-- The rows `renderSurah(s)` writes, each with its play index and bookmark tag. -/
def surahRows (s : Surah) : List Row :=
  s.ayahs.enum.map fun (idx, a) =>
    { verse := a, actions := some (idx, numText s.number ++ ":" ++ numText a.numberInSurah) }

/-- `renderSurah(s)`. -/
def renderSurah (s : Surah) (st : State) : State :=
  { st with verses := .rows (surahRows s) }

/-- The part of `warmRecitationAudio(surahNumber, reciterId)` that runs once
the request has been answered: it works on the state as it is by then, with the
two arguments as they were passed at the call. -/
def audioArrived (surahNumber : Int) (reciterId : String) (env : Env) (st : State) :
    State × List Effect :=
  match env.audio with
  | some urls =>
    ({ st with currentAudioList := ⟨urls, some surahNumber, some reciterId⟩ },
      (match urls.head? with
        | some u => if env.hasCaches ∧ u ≠ "" then [.precache u] else []
        | none => []))
  | none => ({ st with currentAudioList := ⟨[], none, none⟩ }, [])

/-- `warmRecitationAudio(surahNumber, reciterId)` run without anything
happening between its request and the answer. -/
def warmRecitationAudio (surahNumber : Int) (reciterId : String) (env : Env) (st : State) :
    State × List Effect :=
  ((audioArrived surahNumber reciterId env st).1,
    .fetchAudio surahNumber reciterId :: (audioArrived surahNumber reciterId env st).2)

/-- The tail of `openSurah` once `surahObj` is known. -/
def showSurah (number : Int) (s : Surah) (env : Env) (st : State) : State × List Effect :=
  warmRecitationAudio number st.currentReciter env
    (renderSurah s { st with currentSurah := some s, currentAyahIndex := 0 })

/-- `openSurah(number)`.  The result is `none` only for a `foreign` cache entry.
The cache write is guarded: where `setItem` throws, the handler goes on with the
store as it was. -/
def openSurah (number : Int) (env : Env) (st : State) : Option (State × List Effect) :=
  let st1 := { st with verses := .message "Loading…" }
  match readCache st.localStorage number with
  | .foreign => none
  | .hit s => some (showSurah number s env st1)
  | .miss =>
    match env.text, env.translation with
    | some text, some translation =>
      let s := buildSurah text translation
      let st2 :=
        match st1.localStorage.setItem (cacheKey number) (stringify s.toJVal)
            env.storageWritable with
        | some store => { st1 with localStorage := store }
        | none => st1
      let (st3, effs) := showSurah number s env st2
      some (st3, .fetchText number :: .fetchTranslation number :: effs)
    | _, _ =>
      some ({ st1 with verses := .message "Failed to load surah. Possibly offline." },
        [.fetchText number, .fetchTranslation number])

/-- `loadSurahList()` followed by `renderSurahList()`: one visible row per chapter. -/
def loadSurahList (env : Env) (st : State) : State × List Effect :=
  match env.index with
  | some l => ({ st with surahs := l, surahRowHidden := l.map fun _ => false }, [.fetchIndex])
  | none => ({ st with surahRowHidden := [] }, [.fetchIndex])

/-! ## Playback -/

/-- `state.currentAudioList[index]`; `none` is `undefined`. -/
def audioAt (l : AudioList) (index : Int) : Option String :=
  if index < 0 then none else l.urls[index.toNat]?

/-- `playUrl(url)`: the notice of a refused playback arrives after the handler. -/
def playUrl (url : String) (env : Env) (st : State) : State × List Effect :=
  ({ st with audioSrc := url, playing := true },
    .audioPlay url ::
      (if env.playBlocked then [.alert "Audio playback blocked by browser policy."] else []))

/-- What a suspended `playAyah` carries over its `await`: its argument and the
two arguments it passed to `warmRecitationAudio`. -/
structure PendingPlay where
  index : Int
  surahNumber : Int
  reciterId : String
  deriving DecidableEq, Repr

/-- Where `playAyah` stands when it first yields: done, with the state and
effects of the whole run, or suspended at `await warmRecitationAudio(...)` with
the request issued and the state untouched. -/
inductive PlayStart where
  | finished (st : State) (effs : List Effect)
  | suspended (pending : PendingPlay) (effs : List Effect)
  deriving DecidableEq, Repr

/-- The lines of `playAyah` after the audio list is settled: read the URL at
`index`, give notice if there is none, else play it and move the index.  The
list is not checked again here. -/
def playAyahTail (index : Int) (env : Env) (st : State) : State × List Effect :=
  match audioAt st.currentAudioList index with
  | none => (st, [.alert "Audio not available for this reciter/surah via API."])
  | some url =>
    if url = "" then (st, [.alert "Audio not available for this reciter/surah via API."])
    else
      let (st2, e2) := playUrl url env st
      ({ st2 with currentAyahIndex := index }, e2)

/-- `playAyah(index)` up to its first yield: with a usable list for the open
chapter and the selected reciter it runs to the end at once; otherwise it issues
the audio request for them and suspends. -/
def playAyahStart (index : Int) (env : Env) (st : State) : PlayStart :=
  match st.currentSurah with
  | none => .finished st []
  | some s =>
    if st.currentAudioList.urls.length = 0 ∨ st.currentAudioList.surah ≠ some s.number ∨
        st.currentAudioList.reciter ≠ some st.currentReciter then
      .suspended ⟨index, s.number, st.currentReciter⟩
        [.fetchAudio s.number st.currentReciter]
    else .finished (playAyahTail index env st).1 (playAyahTail index env st).2

/-- A suspended `playAyah` taken up again when its request is answered, in the
state `st` the script has reached by then: the list is replaced and tagged with
the arguments of the call, and the rest of `playAyah` runs. -/
def playAyahResume (pending : PendingPlay) (env : Env) (st : State) : State × List Effect :=
  ((playAyahTail pending.index env
      (audioArrived pending.surahNumber pending.reciterId env st).1).1,
    (audioArrived pending.surahNumber pending.reciterId env st).2 ++
      (playAyahTail pending.index env
        (audioArrived pending.surahNumber pending.reciterId env st).1).2)

/-- `playAyah(index)` run without anything happening during its `await`. -/
def playAyah (index : Int) (env : Env) (st : State) : State × List Effect :=
  match playAyahStart index env st with
  | .finished st1 effs => (st1, effs)
  | .suspended pending effs =>
    ((playAyahResume pending env st).1, effs ++ (playAyahResume pending env st).2)

/-- `stopAudio()`.  `clearedSrc` is what `state.audio.src` reads after the
script has set it to the empty string, which depends on the address of the
page. -/
def stopAudio (clearedSrc : String) (st : State) : State × List Effect :=
  ({ st with audioSrc := clearedSrc, playing := false }, [.audioPause])

/-- The `change` listener of the reciter select. -/
def changeReciter (reciterId clearedSrc : String) (st : State) : State × List Effect :=
  stopAudio clearedSrc { st with currentReciter := reciterId }

/-- `togglePlay()`. -/
def togglePlay (env : Env) (st : State) : State × List Effect :=
  if st.playing then ({ st with playing := false }, [.audioPause])
  else if st.audioSrc ≠ "" then ({ st with playing := true }, [.audioPlay st.audioSrc])
  else playAyah (if st.currentAyahIndex ≠ 0 then st.currentAyahIndex else 0) env st

/-- `playNext()`, also the listener of the audio element's `ended` event.
Without an open chapter the read of `state.currentSurah.ayahs` throws and the
handler ends there. -/
def playNext (env : Env) (st : State) : State × List Effect :=
  match st.currentSurah with
  | none => (st, [])
  | some s =>
    if st.currentAyahIndex < (s.ayahs.length : Int) - 1 then
      playAyah (st.currentAyahIndex + 1) env st
    else (st, [.alert "End of surah"])

/-- `playPrev()`. -/
def playPrev (env : Env) (st : State) : State × List Effect :=
  if st.currentAyahIndex > 0 then playAyah (st.currentAyahIndex - 1) env st else (st, [])

/-- The user actions and events that drive playback. -/
inductive PlayEvent where
  | playVerse (idx : Nat)
  | next
  | previous
  | toggle
  | ended
  deriving DecidableEq, Repr

/-- One playback step: the handler bound to the event. -/
def playStep (ev : PlayEvent) (env : Env) (st : State) : State × List Effect :=
  match ev with
  | .playVerse idx => playAyah (idx : Int) env st
  | .next => playNext env st
  | .previous => playPrev env st
  | .toggle => togglePlay env st
  | .ended => playNext env st

/-- `openSurah(number)` gets hold of the chapter `s`: from the cache, or on a
miss from two successful responses. -/
def Opens (number : Int) (env : Env) (st : State) (s : Surah) : Prop :=
  readCache st.localStorage number = .hit s ∨
    (readCache st.localStorage number = .miss ∧
      ∃ text translation, env.text = some text ∧ env.translation = some translation ∧
        s = buildSurah text translation)

/-- States reachable from opening a chapter of `n` verses by playback steps;
a verse is played from a row of the open chapter, so its index is below `n`. -/
inductive Reachable (n : Nat) : State → Prop where
  | opened (number : Int) (env : Env) (st0 st : State) (effs : List Effect) (s : Surah) :
      Opens number env st0 s → openSurah number env st0 = some (st, effs) →
      s.ayahs.length = n → Reachable n st
  | step (ev : PlayEvent) (env : Env) (st : State) :
      Reachable n st → (∀ idx, ev = .playVerse idx → idx < n) →
      Reachable n (playStep ev env st).1

/-- The position invariant: a chapter of `n` verses is open and the index
names one of its verses. -/
def InRange (n : Nat) (st : State) : Prop :=
  ∃ s, st.currentSurah = some s ∧ s.ayahs.length = n ∧
    0 ≤ st.currentAyahIndex ∧ st.currentAyahIndex ≤ (n : Int) - 1

/-! ## Search -/

/-- `hay.includes(needle)` on character lists. -/
def includesChars : List Char → List Char → Bool
  | [], needle => needle.isEmpty
  | c :: hay, needle => needle.isPrefixOf (c :: hay) || includesChars hay needle

/-- `hay.includes(needle)`. -/
def includes (hay needle : String) : Bool := includesChars hay.data needle.data

/-- The filter of `search` on the verses of the open chapter; `q` is already
in lower case. -/
def verseMatches (toLowerCase : String → String) (q : String) (a : Verse) : Bool :=
  includes a.text q || (a.translation ≠ "" && includes (toLowerCase a.translation) q)

/-- The test of `search` on one chapter of the index; `q` is already in lower case. -/
def surahMatches (toLowerCase : String → String) (q : String) (s : SurahInfo) : Bool :=
  includes (toLowerCase s.englishName) q || (s.name ≠ "" && includes s.name q)

/-- The loop of `search` over the rows of the chapter list, from row `idx` on:
a row without a chapter behind it ends nothing and is left as it is. -/
def filterRows (toLowerCase : String → String) (q : String) (surahs : List SurahInfo) :
    Nat → List Bool → List Bool
  | _, [] => []
  | idx, hidden :: rest =>
    (match surahs[idx]? with
      | some s => !surahMatches toLowerCase q s
      | none => hidden) :: filterRows toLowerCase q surahs (idx + 1) rest

/-- `search(q)`; the listener passes the trimmed content of the search box.
`toLowerCase` stands for JavaScript's `String.prototype.toLowerCase`. -/
def search (toLowerCase : String → String) (q : String) (st : State) : State :=
  if q = "" then
    match st.currentSurah with
    | some s => renderSurah s st
    | none => st
  else
    let q := toLowerCase q
    match st.currentSurah with
    | some s =>
      let found := s.ayahs.filter (verseMatches toLowerCase q)
      { st with verses := .rows (found.map fun a => ⟨a, none⟩) }
    | none =>
      { st with surahRowHidden := filterRows toLowerCase q st.surahs 0 st.surahRowHidden }

/-- Lower case of the letters A to Z, every other character unchanged: what
`toLowerCase` does on such text. -/
def asciiLower (s : String) : String := String.mk (s.data.map Char.toLower)

/-! ## Bookmarks -/

/-- The key of the bookmark list. -/
def BK : String := "og_bookmarks"

/-- `JSON.parse(localStorage.getItem(BK) || '[]')`; `none` where it throws. -/
def readBookmarks (store : Storage) : Option JVal :=
  match store.getItem BK with
  | none => JSON.parse "[]"
  | some raw => if raw = "" then JSON.parse "[]" else JSON.parse raw

/-- `arr.includes(tag)` for an array of parsed values and a string `tag`. -/
def includesTag (arr : List JVal) (tag : String) : Bool :=
  arr.any fun v =>
    match v with
    | .str s => s = tag
    | _ => false

/-- The write at the end of `addBookmark`: it is not guarded, so where
`setItem` throws the handler ends there and the store stays as it was. -/
def writeBookmarks (value : JVal) (env : Env) (store : Storage) : Storage :=
  match store.setItem BK (stringify value) env.storageWritable with
  | some written => written
  | none => store

/-- `addBookmark(tag)` on the local store.  Where the stored text does not
parse the handler throws before writing.  A stored string answers `includes`
as a substring test and has no `push`; any other stored value has no
`includes`: the handler throws there and the store stays as it was. -/
def addBookmark (tag : String) (env : Env) (store : Storage) : Storage :=
  match readBookmarks store with
  | none => store
  | some (.arr xs) =>
    writeBookmarks (.arr (if includesTag xs tag then xs else xs ++ [.str tag])) env store
  | some (.str s) =>
    if includes s tag then writeBookmarks (.str s) env store else store
  | some _ => store

/-- `exportBookmarks()`: the file handed to the browser for download, or none
where the stored text does not parse and the handler throws. -/
def exportBookmarks (store : Storage) : List Effect :=
  match readBookmarks store with
  | none => []
  | some arr => [.download "bookmarks.json" (stringifyIndent2 arr)]

/-- A list of parsed values read as tag strings. -/
def tagsOfJVals : List JVal → Option (List String)
  | [] => some []
  | .str s :: vs =>
    match tagsOfJVals vs with
    | some ts => some (s :: ts)
    | none => none
  | _ :: _ => none

/-- The list of tags in the bookmark store, when it is an array of strings. -/
def storedTags (store : Storage) : Option (List String) :=
  match readBookmarks store with
  | some (.arr xs) => tagsOfJVals xs
  | _ => none

/-! ## Clearing the cache -/

/-- `clearAllCaches()`. -/
def clearAllCaches (env : Env) (st : State) : State × List Effect :=
  if env.hasCaches then
    ({ st with localStorage := st.localStorage.clear },
      env.cacheNames.map Effect.deleteCache ++
        [.alert "Cache & localStorage cleared", .reload])
  else (st, [.alert "Cache API not supported"])

/-! ## Sample data -/

/-- The script's initial `state`, with nothing rendered and an empty local store. -/
def startState : State :=
  { surahs := [], currentSurah := none, currentAyahIndex := 0, audioSrc := ""
    currentReciter := "ar.alafasy", currentAudioList := ⟨[], none, none⟩, playing := false
    verses := .message "", surahRowHidden := [], localStorage := [] }

/-- An original-text response with two verses. -/
def sampleText : TextResponse :=
  ⟨1, "الفاتحة", "Al-Faatiha", [⟨1, "بسم الله"⟩, ⟨2, "الحمد لله"⟩]⟩

/-- A translation response with one verse only. -/
def sampleTranslation : TranslationResponse := ⟨[⟨"In the name of Allah"⟩]⟩

/-- Surroundings in which every request succeeds. -/
def sampleEnv : Env :=
  { index := some [⟨1, "الفاتحة", "Al-Faatiha"⟩]
    text := some sampleText
    translation := some sampleTranslation
    audio := some ["https://cdn.example/1.mp3", "https://cdn.example/2.mp3"]
    hasCaches := true
    cacheNames := ["og-audio-cache-v1"]
    playBlocked := false
    storageWritable := true }

/-- Surroundings in which every request succeeds and the local store refuses
every write (a full or disabled store). -/
def fullStoreEnv : Env := { sampleEnv with storageWritable := false }

/-- The state after chapter 1 was opened from `startState`. -/
def openedState : State :=
  match openSurah 1 sampleEnv startState with
  | some r => r.1
  | none => startState

/-- The state after chapter 1 was opened from `startState` on a store that
refuses the cache write. -/
def uncachedState : State :=
  match openSurah 1 fullStoreEnv startState with
  | some r => r.1
  | none => startState

/-- Surroundings in which the audio request fails. -/
def noAudioEnv : Env := { sampleEnv with audio := none }

/-- The state after chapter 1 was opened while the audio request failed: the
chapter is open and the audio list is empty. -/
def staleListState : State :=
  match openSurah 1 noAudioEnv startState with
  | some r => r.1
  | none => startState

/-- Surroundings answering for chapter 2. -/
def secondEnv : Env :=
  { sampleEnv with
    text := some ⟨2, "البقرة", "Al-Baqara", [⟨1, "الم"⟩]⟩
    translation := some ⟨[⟨"Alif, Lam, Meem."⟩]⟩
    audio := some ["https://cdn.example/8.mp3"] }

/-- The state after chapter 2 was opened from `staleListState`. -/
def otherChapterState : State :=
  match openSurah 2 secondEnv staleListState with
  | some r => r.1
  | none => staleListState

/-- The state after the reciter `ar.husary` was selected in `staleListState`. -/
def otherReciterState : State := (changeReciter "ar.husary" "" staleListState).1

/-- The state after chapter 1 was opened and its last verse started. -/
def lastVersePlaying : State := (playAyah 1 sampleEnv openedState).1

/-- The state after chapter 1 was opened and its first verse bookmarked. -/
def bookmarkedState : State :=
  { openedState with localStorage := addBookmark "1:1" sampleEnv openedState.localStorage }

/-- Surroundings of a browser without the Cache API. -/
def noCacheApiEnv : Env := { sampleEnv with hasCaches := false }

/-- The state after the chapter index was loaded, no chapter open. -/
def listState : State := (loadSurahList sampleEnv startState).1

/-- The lines `JSON.stringify(arr, null, 2)` writes for the tags after the
first: a comma, a line break, two spaces and the quoted tag. -/
def tagLines : List String → List Char
  | [] => []
  | t :: ts => [',', '\n', ' ', ' '] ++ (quote t ++ tagLines ts)

/-- The text of an array of tags, one tag per line, indented by two spaces. -/
def prettyTags : List String → String
  | [] => "[]"
  | t :: ts => String.mk (['[', '\n', ' ', ' '] ++ (quote t ++ (tagLines ts ++ ['\n', ']'])))

/-- The filter as the specification words it: the original text or the
translated text contains the query, letter case ignored on both sides. -/
def matchesIgnoringCase (toLowerCase : String → String) (q : String) (a : Verse) : Bool :=
  includes (toLowerCase a.text) (toLowerCase q) ||
    includes (toLowerCase a.translation) (toLowerCase q)

/-- An open chapter whose only verse has an original text in capital letters. -/
def capitalsState : State :=
  { startState with currentSurah := some ⟨1, "ABC", "Abc", [⟨1, "ABC", "xyz"⟩]⟩ }

end Script

namespace JSON

/-- A text after which a number literal ends: it does not go on with a digit,
a fraction or an exponent. -/
def numEnd : List Char → Bool
  | [] => true
  | c :: _ => !(c.isDigit || c = '.' || c = 'e' || c = 'E')

/-- A text that the reader skips as white space in front of a token. -/
def Blank (w : List Char) : Prop := ∀ cs, skipWs (w ++ cs) = skipWs cs

/-- Text of a non-empty run of array items: the first one, then the others. -/
def renderItems (pretty : Bool) (level : Nat) : List JVal → List Char
  | [] => []
  | x :: xs => render pretty level x ++ render.renderElems pretty level xs

/-- Text of one object member. -/
def renderMember (pretty : Bool) (level : Nat) (k : String) (v : JVal) : List Char :=
  quote k ++ (colon pretty ++ render pretty level v)

/-- Text of a non-empty run of object members. -/
def renderFields (pretty : Bool) (level : Nat) : List (String × JVal) → List Char
  | [] => []
  | (k, v) :: ms => renderMember pretty level k v ++ render.renderMembers pretty level ms

/-- First characters of a value: never white space, a closing bracket or brace. -/
def valueStart (c : Char) : Bool :=
  c = 'n' || c = 't' || c = 'f' || c = '"' || c = '[' || c = '\x7b' || c = '-' || c.isDigit

/-- Value of a run of decimal digits read after the value `a`. -/
def digitsVal (ds : List Char) (a : Nat) : Nat :=
  ds.foldl (fun a c => 10 * a + (c.toNat - 48)) a

end JSON

/-! # Theorems -/

namespace JSON

/-! ## Decimal digits -/

theorem toDigitsCore_eq (n : Nat) :
    ∀ fuel ds, n < fuel → Nat.toDigitsCore 10 fuel n ds = Nat.toDigits 10 n ++ ds := by
  induction n using Nat.strong_induction_on with
  | _ n ih =>
    intro fuel ds hf
    obtain ⟨f, rfl⟩ : ∃ f, fuel = f + 1 := ⟨fuel - 1, by omega⟩
    unfold Nat.toDigits
    simp only [Nat.toDigitsCore]
    by_cases h0 : n / 10 = 0
    · simp [h0]
    · have hlt : n / 10 < n := by omega
      simp only [h0, if_false]
      rw [ih (n / 10) hlt f _ (by omega), ih (n / 10) hlt n _ hlt]
      simp

theorem toDigits_small (n : Nat) (h : n / 10 = 0) :
    Nat.toDigits 10 n = [Nat.digitChar (n % 10)] := by
  unfold Nat.toDigits
  simp [Nat.toDigitsCore, h]

theorem toDigits_step (n : Nat) (h : n / 10 ≠ 0) :
    Nat.toDigits 10 n = Nat.toDigits 10 (n / 10) ++ [Nat.digitChar (n % 10)] := by
  conv_lhs => unfold Nat.toDigits
  simp only [Nat.toDigitsCore, h, if_false]
  exact toDigitsCore_eq (n / 10) n _ (by omega)

theorem digitChar_isDigit (d : Nat) (h : d < 10) :
    (Nat.digitChar d).isDigit = true ∧ (Nat.digitChar d).toNat - 48 = d ∧
      (d ≠ 0 → Nat.digitChar d ≠ '0') := by
  revert d
  decide

theorem toDigits_isDigit (n : Nat) : ∀ c ∈ Nat.toDigits 10 n, c.isDigit = true := by
  induction n using Nat.strong_induction_on with
  | _ n ih =>
    by_cases h0 : n / 10 = 0
    · rw [toDigits_small n h0]
      intro c hc
      simp only [List.mem_singleton] at hc
      subst hc
      exact (digitChar_isDigit _ (Nat.mod_lt _ (by decide))).1
    · rw [toDigits_step n h0]
      intro c hc
      rcases List.mem_append.1 hc with hc | hc
      · exact ih (n / 10) (by omega) c hc
      · simp only [List.mem_singleton] at hc
        subst hc
        exact (digitChar_isDigit _ (Nat.mod_lt _ (by decide))).1

theorem toDigits_head (n : Nat) (hn : n ≠ 0) :
    ∃ c t, Nat.toDigits 10 n = c :: t ∧ c ≠ '0' ∧ c.isDigit = true := by
  induction n using Nat.strong_induction_on with
  | _ n ih =>
    by_cases h0 : n / 10 = 0
    · refine ⟨Nat.digitChar (n % 10), [], toDigits_small n h0, ?_, ?_⟩
      · exact (digitChar_isDigit _ (Nat.mod_lt _ (by decide))).2.2 (by omega)
      · exact (digitChar_isDigit _ (Nat.mod_lt _ (by decide))).1
    · obtain ⟨c, t, ht, hc0, hcd⟩ := ih (n / 10) (by omega) h0
      exact ⟨c, t ++ [Nat.digitChar (n % 10)], by rw [toDigits_step n h0, ht]; rfl, hc0, hcd⟩

theorem digitsVal_toDigits (n : Nat) : digitsVal (Nat.toDigits 10 n) 0 = n := by
  induction n using Nat.strong_induction_on with
  | _ n ih =>
    by_cases h0 : n / 10 = 0
    · rw [toDigits_small n h0]
      simp only [digitsVal, List.foldl]
      rw [(digitChar_isDigit _ (Nat.mod_lt _ (by decide))).2.1]
      omega
    · rw [toDigits_step n h0]
      have := ih (n / 10) (by omega)
      simp only [digitsVal, List.foldl_append, List.foldl] at this ⊢
      rw [this, (digitChar_isDigit _ (Nat.mod_lt _ (by decide))).2.1]
      omega

theorem parseDigits_append (ds : List Char) (hds : ∀ c ∈ ds, c.isDigit = true) :
    ∀ (rest : List Char) (a : Nat),
      parseDigits (ds ++ rest) a = parseDigits rest (digitsVal ds a) := by
  induction ds with
  | nil => intro rest a; rfl
  | cons c ds ih =>
    intro rest a
    have hc : c.isDigit = true := hds c (List.mem_cons_self _ _)
    show parseDigits (c :: (ds ++ rest)) a = _
    simp only [parseDigits, hc, if_true]
    rw [ih (fun x hx => hds x (List.mem_cons_of_mem _ hx))]
    rfl

theorem parseDigits_numEnd (rest : List Char) (a : Nat) (h : numEnd rest = true) :
    parseDigits rest a = (a, rest) := by
  cases rest with
  | nil => rfl
  | cons c cs =>
    have hc : c.isDigit = false := by
      simp only [numEnd, Bool.not_eq_true', Bool.or_eq_false_iff] at h
      exact h.1.1.1
    simp [parseDigits, hc]

theorem startsFraction_numEnd (rest : List Char) (h : numEnd rest = true) :
    startsFraction rest = false := by
  cases rest with
  | nil => rfl
  | cons c cs =>
    simp only [numEnd, Bool.not_eq_true', Bool.or_eq_false_iff] at h
    simp only [startsFraction, Bool.or_eq_false_iff]
    exact ⟨⟨h.1.1.2, h.1.2⟩, h.2⟩

theorem parseNat_toDigits (n : Nat) (rest : List Char) (h : numEnd rest = true) :
    parseNat (Nat.toDigits 10 n ++ rest) = some (n, rest) := by
  by_cases hn : n = 0
  · subst hn
    rfl
  · obtain ⟨c, t, ht, hc0, hcd⟩ := toDigits_head n hn
    have hp := parseDigits_append (Nat.toDigits 10 n) (toDigits_isDigit n) rest 0
    rw [digitsVal_toDigits, parseDigits_numEnd rest n h] at hp
    rw [ht] at hp ⊢
    simp only [List.cons_append, parseNat, hc0, hcd, if_true, if_false]
    exact congrArg some hp

theorem parseNumber_renderInt (z : Int) (rest : List Char) (h : numEnd rest = true) :
    parseNumber (renderInt z ++ rest) = some (z, rest) := by
  have hf := startsFraction_numEnd rest h
  by_cases hz : z < 0
  · simp only [renderInt, hz, if_true, List.cons_append, parseNumber]
    rw [parseNat_toDigits _ rest h]
    simp only [hf]
    have : -((z.natAbs : Nat) : Int) = z := by omega
    rw [this]
    rfl
  · simp only [renderInt, hz, if_false]
    obtain ⟨c, t, ht, hcd⟩ : ∃ c t, Nat.toDigits 10 z.natAbs = c :: t ∧ c.isDigit = true := by
      by_cases hn : z.natAbs = 0
      · exact ⟨'0', [], by rw [hn]; rfl, by decide⟩
      · obtain ⟨c, t, ht, _, hcd⟩ := toDigits_head _ hn
        exact ⟨c, t, ht, hcd⟩
    have hp := parseNat_toDigits z.natAbs rest h
    rw [ht] at hp ⊢
    have hminus : c ≠ '-' := by
      intro hc
      rw [hc] at hcd
      exact absurd hcd (by decide)
    simp only [List.cons_append, parseNumber, hminus, if_false] at hp ⊢
    rw [hp]
    simp only [hf]
    have : ((z.natAbs : Nat) : Int) = z := by omega
    rw [this]
    rfl

/-! ## String literals -/

theorem hex4_control : ∀ n, n < 32 →
    hex4 '0' '0' (hexDigit (n / 16)) (hexDigit (n % 16)) = some n := by
  decide

theorem parseStrBody_quoteChar (c : Char) (tail acc : List Char) :
    parseStrBody (quoteChar c ++ tail) acc = parseStrBody tail (c :: acc) := by
  by_cases h1 : c = '"'
  · subst h1; simp only [quoteChar]; rw [parseStrBody.eq_def]; simp [unescape]
  by_cases h2 : c = '\\'
  · subst h2; simp only [quoteChar]; rw [parseStrBody.eq_def]; simp [unescape]
  by_cases h3 : c = '\x08'
  · subst h3; simp only [quoteChar]; rw [parseStrBody.eq_def]; simp [unescape]
  by_cases h4 : c = '\x0c'
  · subst h4; simp only [quoteChar]; rw [parseStrBody.eq_def]; simp [unescape]
  by_cases h5 : c = '\n'
  · subst h5; simp only [quoteChar]; rw [parseStrBody.eq_def]; simp [unescape]
  by_cases h6 : c = '\r'
  · subst h6; simp only [quoteChar]; rw [parseStrBody.eq_def]; simp [unescape]
  by_cases h7 : c = '\t'
  · subst h7; simp only [quoteChar]; rw [parseStrBody.eq_def]; simp [unescape]
  by_cases h8 : c.toNat < 32
  · have hq : quoteChar c =
        ['\\', 'u', '0', '0', hexDigit (c.toNat / 16), hexDigit (c.toNat % 16)] := by
      simp [quoteChar, h1, h2, h3, h4, h5, h6, h7, h8]
    rw [hq, parseStrBody.eq_def]
    simp only [List.cons_append, List.nil_append]
    rw [hex4_control _ h8]
    have hs : ¬ (0xd800 ≤ c.toNat ∧ c.toNat ≤ 0xdfff) := by omega
    simp [hs, Char.ofNat_toNat]
  · have hq : quoteChar c = [c] := by
      simp [quoteChar, h1, h2, h3, h4, h5, h6, h7, h8]
    rw [hq, parseStrBody.eq_def]
    simp [h1, h2, h8]

theorem parseStrBody_quoteBody (s : List Char) :
    ∀ (rest acc : List Char),
      parseStrBody (quoteBody s ++ '"' :: rest) acc = some (String.mk (acc.reverse ++ s), rest) := by
  induction s with
  | nil => intro rest acc; rw [parseStrBody.eq_def]; simp [quoteBody]
  | cons c s ih =>
    intro rest acc
    simp only [quoteBody, List.append_assoc]
    rw [parseStrBody_quoteChar, ih]
    simp

theorem parseStrBody_quote (s : String) (rest : List Char) :
    ∃ t, quote s ++ rest = '"' :: t ∧ parseStrBody t [] = some (s, rest) := by
  refine ⟨quoteBody s.data ++ '"' :: rest, by simp [quote], ?_⟩
  rw [parseStrBody_quoteBody]
  rfl

/-! ## White space and first characters -/

theorem blank_nil : Blank [] := fun _ => rfl

theorem skipWs_spaces (n : Nat) (cs : List Char) :
    skipWs (List.replicate n ' ' ++ cs) = skipWs cs := by
  induction n with
  | zero => rfl
  | succ n ih =>
    show skipWs (' ' :: (List.replicate n ' ' ++ cs)) = _
    simp only [skipWs]
    rw [if_pos (by decide), ih]

theorem blank_indent (p : Bool) (l : Nat) : Blank (indent p l) := by
  intro cs
  cases p with
  | false => rfl
  | true =>
    show skipWs ('\n' :: (List.replicate (2 * l) ' ' ++ cs)) = _
    simp only [skipWs]
    rw [if_pos (by decide), skipWs_spaces]

theorem blank_colon_tail (p : Bool) : ∃ w, colon p = ':' :: w ∧ Blank w := by
  cases p with
  | false => exact ⟨[], rfl, blank_nil⟩
  | true =>
    refine ⟨[' '], rfl, fun cs => ?_⟩
    show skipWs (' ' :: cs) = _
    simp only [skipWs]
    rw [if_pos (by decide)]

theorem skipWs_cons (c : Char) (cs : List Char) (h : isWs c = false) :
    skipWs (c :: cs) = c :: cs := by
  simp [skipWs, h]

theorem renderInt_head (z : Int) :
    ∃ c t, renderInt z = c :: t ∧ (c = '-' ∨ c.isDigit = true) := by
  by_cases hz : z < 0
  · exact ⟨'-', _, by rw [renderInt, if_pos hz], Or.inl rfl⟩
  · by_cases hn : z.natAbs = 0
    · exact ⟨'0', [], by simp [renderInt, hz, hn]; rfl, Or.inr (by decide)⟩
    · obtain ⟨c, t, ht, _, hcd⟩ := toDigits_head _ hn
      exact ⟨c, t, by simp [renderInt, hz, ht], Or.inr hcd⟩

theorem render_head (p : Bool) (l : Nat) (v : JVal) :
    ∃ c t, render p l v = c :: t ∧ valueStart c = true := by
  cases v with
  | null => exact ⟨'n', _, by rw [render], by decide⟩
  | bool b => cases b
              · exact ⟨'f', _, by rw [render], by decide⟩
              · exact ⟨'t', _, by rw [render], by decide⟩
  | num z =>
    obtain ⟨c, t, ht, hc⟩ := renderInt_head z
    refine ⟨c, t, by simp [render, ht], ?_⟩
    rcases hc with rfl | hc
    · decide
    · simp [valueStart, hc]
  | str s => exact ⟨'"', _, by rw [render, quote], by decide⟩
  | arr xs => cases xs
              · exact ⟨'[', _, by rw [render], by decide⟩
              · exact ⟨'[', _, by rw [render], by decide⟩
  | obj ms =>
    cases ms with
    | nil => exact ⟨'\x7b', _, by rw [render], by decide⟩
    | cons m ms => obtain ⟨k, v⟩ := m
                   exact ⟨'\x7b', _, by rw [render], by decide⟩

theorem valueStart_not (c : Char) (h : valueStart c = true) :
    isWs c = false ∧ c ≠ ']' ∧ c ≠ '\x7d' := by
  refine ⟨?_, ?_, ?_⟩
  · cases hw : isWs c with
    | false => rfl
    | true =>
      simp only [isWs, Bool.or_eq_true, decide_eq_true_eq] at hw
      rcases hw with ((rfl | rfl) | rfl) | rfl <;> exact absurd h (by decide)
  · rintro rfl; exact absurd h (by decide)
  · rintro rfl; exact absurd h (by decide)

theorem numStart_not (c : Char) (h : c = '-' ∨ c.isDigit = true) :
    isWs c = false ∧ c ≠ '[' ∧ c ≠ '\x7b' ∧ c ≠ '"' ∧ c ≠ 't' ∧ c ≠ 'f' ∧ c ≠ 'n' := by
  have hd : ∀ d : Char, (d = '-' ∨ d.isDigit = true) → d.isDigit = false → d = '-' := by
    intro d hd hf
    rcases hd with rfl | hd
    · rfl
    · rw [hd] at hf; exact absurd hf (by decide)
  refine ⟨?_, ?_, ?_, ?_, ?_, ?_, ?_⟩
  · cases hw : isWs c with
    | false => rfl
    | true =>
      simp only [isWs, Bool.or_eq_true, decide_eq_true_eq] at hw
      rcases hw with ((rfl | rfl) | rfl) | rfl <;> exact absurd (hd _ h (by decide)) (by decide)
  all_goals (rintro rfl; exact absurd (hd _ h (by decide)) (by decide))

theorem numEnd_close (p : Bool) (l : Nat) (c : Char) (rest : List Char)
    (hc : c = ']' ∨ c = '\x7d') : numEnd (indent p l ++ c :: rest) = true := by
  cases p with
  | true => rfl
  | false => rcases hc with rfl | rfl <;> rfl

theorem numEnd_elems (p : Bool) (l l2 : Nat) (xs : List JVal) (rest : List Char) :
    numEnd (render.renderElems p l xs ++ (indent p l2 ++ ']' :: rest)) = true := by
  cases xs with
  | nil => exact numEnd_close p l2 _ rest (Or.inl rfl)
  | cons x xs => rw [render.renderElems]; rfl

theorem numEnd_members (p : Bool) (l l2 : Nat) (ms : List (String × JVal)) (rest : List Char) :
    numEnd (render.renderMembers p l ms ++ (indent p l2 ++ '\x7d' :: rest)) = true := by
  cases ms with
  | nil => exact numEnd_close p l2 _ rest (Or.inr rfl)
  | cons m ms => obtain ⟨k, v⟩ := m; rw [render.renderMembers]; rfl

theorem parseValue_null (fuel : Nat) (w rest : List Char) (hw : Blank w) :
    parseValue (fuel + 1) (w ++ ('n' :: 'u' :: 'l' :: 'l' :: rest)) = some (.null, rest) := by
  rw [parseValue, hw, skipWs_cons _ _ (by decide)]
  simp

theorem parseValue_true (fuel : Nat) (w rest : List Char) (hw : Blank w) :
    parseValue (fuel + 1) (w ++ ('t' :: 'r' :: 'u' :: 'e' :: rest)) = some (.bool true, rest) := by
  rw [parseValue, hw, skipWs_cons _ _ (by decide)]
  simp

theorem parseValue_false (fuel : Nat) (w rest : List Char) (hw : Blank w) :
    parseValue (fuel + 1) (w ++ ('f' :: 'a' :: 'l' :: 's' :: 'e' :: rest)) =
      some (.bool false, rest) := by
  rw [parseValue, hw, skipWs_cons _ _ (by decide)]
  simp

theorem parseValue_num (fuel : Nat) (z : Int) (w rest : List Char) (hw : Blank w)
    (hr : numEnd rest = true) :
    parseValue (fuel + 1) (w ++ (renderInt z ++ rest)) = some (.num z, rest) := by
  obtain ⟨c, t, ht, hc⟩ := renderInt_head z
  obtain ⟨h0, h1, h2, h3, h4, h5, h6⟩ := numStart_not c hc
  have hp := parseNumber_renderInt z rest hr
  rw [ht] at hp ⊢
  rw [List.cons_append] at hp ⊢
  rw [parseValue, hw, skipWs_cons _ _ h0]
  simp only [h1, h2, h3, h4, h5, h6, if_false, hp]

theorem parseValue_str (fuel : Nat) (s : String) (w rest : List Char) (hw : Blank w) :
    parseValue (fuel + 1) (w ++ (quote s ++ rest)) = some (.str s, rest) := by
  obtain ⟨t, ht, hp⟩ := parseStrBody_quote s rest
  rw [ht, parseValue, hw, skipWs_cons _ _ (by decide)]
  simp [hp]

/-! ## Reading back what was written -/

theorem parseValue_open_bracket (fuel : Nat) (w r : List Char) (c : Char) (hw : Blank w)
    (w2 : List Char) (hw2 : Blank w2) (hc : valueStart c = true) :
    parseValue (fuel + 1) (w ++ ('[' :: (w2 ++ c :: r))) = parseElems fuel (c :: r) [] := by
  obtain ⟨h0, h1, _⟩ := valueStart_not c hc
  rw [parseValue, hw, skipWs_cons _ _ (by decide)]
  simp only [if_true]
  rw [hw2, skipWs_cons _ _ h0]
  simp only [h1, if_false]

theorem parseValue_open_brace (fuel : Nat) (w r : List Char) (hw : Blank w)
    (w2 : List Char) (hw2 : Blank w2) :
    parseValue (fuel + 1) (w ++ ('\x7b' :: (w2 ++ '"' :: r))) =
      parseMembers fuel ('"' :: r) [] := by
  rw [parseValue, hw, skipWs_cons _ _ (by decide)]
  simp only [if_true]
  rw [if_neg (by decide), hw2, skipWs_cons _ _ (by decide)]
  simp

mutual
theorem parseValue_render (p : Bool) : (v : JVal) → ∀ (l fuel : Nat) (w rest : List Char),
    Blank w → (render p l v).length ≤ fuel → numEnd rest = true →
    parseValue fuel (w ++ (render p l v ++ rest)) = some (v, rest)
  | .null, l, fuel, w, rest, hw, hf, _ => by
    obtain ⟨f, rfl⟩ : ∃ f, fuel = f + 1 := ⟨fuel - 1, by simp [render] at hf; omega⟩
    exact parseValue_null f w rest hw
  | .bool true, l, fuel, w, rest, hw, hf, _ => by
    obtain ⟨f, rfl⟩ : ∃ f, fuel = f + 1 := ⟨fuel - 1, by simp [render] at hf; omega⟩
    exact parseValue_true f w rest hw
  | .bool false, l, fuel, w, rest, hw, hf, _ => by
    obtain ⟨f, rfl⟩ : ∃ f, fuel = f + 1 := ⟨fuel - 1, by simp [render] at hf; omega⟩
    exact parseValue_false f w rest hw
  | .num z, l, fuel, w, rest, hw, hf, hr => by
    obtain ⟨c, t, ht, _⟩ := renderInt_head z
    obtain ⟨f, rfl⟩ : ∃ f, fuel = f + 1 := ⟨fuel - 1, by simp [render, ht] at hf; omega⟩
    rw [render]
    exact parseValue_num f z w rest hw hr
  | .str s, l, fuel, w, rest, hw, hf, _ => by
    obtain ⟨f, rfl⟩ : ∃ f, fuel = f + 1 := ⟨fuel - 1, by simp [render, quote] at hf; omega⟩
    rw [render]
    exact parseValue_str f s w rest hw
  | .arr [], l, fuel, w, rest, hw, hf, _ => by
    obtain ⟨f, rfl⟩ : ∃ f, fuel = f + 1 := ⟨fuel - 1, by simp [render] at hf; omega⟩
    rw [render]
    simp only [List.cons_append, List.nil_append]
    rw [parseValue, hw, skipWs_cons _ _ (by decide)]
    simp only [if_true]
    rw [skipWs_cons _ _ (by decide)]
    simp
  | .arr (x :: xs), l, fuel, w, rest, hw, hf, _ => by
    obtain ⟨f, rfl⟩ : ∃ f, fuel = f + 1 := ⟨fuel - 1, by simp [render] at hf; omega⟩
    obtain ⟨c, t, hx, hc⟩ := render_head p (l + 1) x
    have hlen : (renderItems p (l + 1) (x :: xs)).length + 1 ≤ f := by
      simp only [render, renderItems, List.length_cons, List.length_append] at hf ⊢
      omega
    have key := parseItems_render p (x :: xs) (List.cons_ne_nil _ _) (l + 1) l f [] rest []
      blank_nil hlen
    rw [render]
    simp only [renderItems, List.nil_append, List.append_assoc, List.reverse_nil] at key
    simp only [List.cons_append, List.append_assoc]
    rw [hx] at key ⊢
    rw [← key]
    exact parseValue_open_bracket f w _ c hw _ (blank_indent p (l + 1)) hc
  | .obj [], l, fuel, w, rest, hw, hf, _ => by
    obtain ⟨f, rfl⟩ : ∃ f, fuel = f + 1 := ⟨fuel - 1, by simp [render] at hf; omega⟩
    rw [render]
    simp only [List.cons_append, List.nil_append]
    rw [parseValue, hw, skipWs_cons _ _ (by decide)]
    simp only [if_true]
    rw [if_neg (by decide), skipWs_cons _ _ (by decide)]
    simp
  | .obj ((k, v) :: ms), l, fuel, w, rest, hw, hf, _ => by
    obtain ⟨f, rfl⟩ : ∃ f, fuel = f + 1 := ⟨fuel - 1, by simp [render] at hf; omega⟩
    have hlen : (renderFields p (l + 1) ((k, v) :: ms)).length + 1 ≤ f := by
      simp only [render, renderFields, renderMember, List.length_cons, List.length_append]
        at hf ⊢
      omega
    have key := parseFields_render p ((k, v) :: ms) (List.cons_ne_nil _ _) (l + 1) l f [] rest []
      blank_nil hlen
    rw [render]
    simp only [renderFields, renderMember, quote, List.nil_append, List.append_assoc,
      List.reverse_nil, List.cons_append] at key
    simp only [quote, List.cons_append, List.append_assoc]
    rw [← key]
    exact parseValue_open_brace f w _ hw _ (blank_indent p (l + 1))
theorem parseItems_render (p : Bool) : (ys : List JVal) → ys ≠ [] →
    ∀ (l l2 fuel : Nat) (w rest : List Char) (acc : List JVal),
    Blank w → (renderItems p l ys).length + 1 ≤ fuel →
    parseElems fuel (w ++ (renderItems p l ys ++ (indent p l2 ++ ']' :: rest))) acc =
      some (.arr (acc.reverse ++ ys), rest)
  | [], hne, _, _, _, _, _, _, _, _ => absurd rfl hne
  | [x], _, l, l2, fuel, w, rest, acc, hw, hf => by
    obtain ⟨f, rfl⟩ : ∃ f, fuel = f + 1 := ⟨fuel - 1, by omega⟩
    have hv := parseValue_render p x l f w (indent p l2 ++ ']' :: rest) hw
      (by simp only [renderItems, render.renderElems, List.length_append] at hf; omega)
      (numEnd_close p l2 _ rest (Or.inl rfl))
    simp only [renderItems, render.renderElems, List.append_nil]
    rw [parseElems, hv]
    simp only
    rw [blank_indent p l2, skipWs_cons _ _ (by decide)]
    simp
  | x :: y :: ys, _, l, l2, fuel, w, rest, acc, hw, hf => by
    obtain ⟨f, rfl⟩ : ∃ f, fuel = f + 1 := ⟨fuel - 1, by omega⟩
    have hv := parseValue_render p x l f w
      (render.renderElems p l (y :: ys) ++ (indent p l2 ++ ']' :: rest)) hw
      (by simp only [renderItems, List.length_append] at hf; omega)
      (numEnd_elems p l l2 _ rest)
    have ih := parseItems_render p (y :: ys) (List.cons_ne_nil _ _) l l2 f (indent p l) rest
      (x :: acc) (blank_indent p l)
      (by simp only [renderItems, render.renderElems, List.length_append, List.length_cons]
            at hf ⊢
          omega)
    simp only [renderItems, List.append_assoc] at ih ⊢
    rw [parseElems, hv]
    simp only [render.renderElems, List.cons_append, List.append_assoc]
    rw [skipWs_cons _ _ (by decide)]
    simp only [if_true]
    rw [ih]
    simp
theorem parseFields_render (p : Bool) : (ms : List (String × JVal)) → ms ≠ [] →
    ∀ (l l2 fuel : Nat) (w rest : List Char) (acc : List (String × JVal)),
    Blank w → (renderFields p l ms).length + 1 ≤ fuel →
    parseMembers fuel (w ++ (renderFields p l ms ++ (indent p l2 ++ '\x7d' :: rest))) acc =
      some (.obj (acc.reverse ++ ms), rest)
  | [], hne, _, _, _, _, _, _, _, _ => absurd rfl hne
  | [(k, v)], _, l, l2, fuel, w, rest, acc, hw, hf => by
    obtain ⟨f, rfl⟩ : ∃ f, fuel = f + 1 := ⟨fuel - 1, by omega⟩
    obtain ⟨t, ht, hk⟩ := parseStrBody_quote k
      (colon p ++ (render p l v ++ (indent p l2 ++ '\x7d' :: rest)))
    obtain ⟨wc, hwc, hbl⟩ := blank_colon_tail p
    have hv := parseValue_render p v l f wc (indent p l2 ++ '\x7d' :: rest) hbl
      (by simp only [renderFields, renderMember, render.renderMembers, List.length_append]
            at hf
          omega)
      (numEnd_close p l2 _ rest (Or.inr rfl))
    simp only [renderFields, renderMember, render.renderMembers, List.append_nil,
      List.append_assoc]
    rw [ht, parseMembers, hw, skipWs_cons _ _ (by decide)]
    simp only [if_true, hk]
    rw [hwc, List.cons_append, skipWs_cons _ _ (by decide)]
    simp only [if_true, hv]
    rw [blank_indent p l2, skipWs_cons _ _ (by decide)]
    simp
  | (k, v) :: m :: ms, _, l, l2, fuel, w, rest, acc, hw, hf => by
    obtain ⟨f, rfl⟩ : ∃ f, fuel = f + 1 := ⟨fuel - 1, by omega⟩
    obtain ⟨t, ht, hk⟩ := parseStrBody_quote k
      (colon p ++ (render p l v ++
        (render.renderMembers p l (m :: ms) ++ (indent p l2 ++ '\x7d' :: rest))))
    obtain ⟨wc, hwc, hbl⟩ := blank_colon_tail p
    have hv := parseValue_render p v l f wc
      (render.renderMembers p l (m :: ms) ++ (indent p l2 ++ '\x7d' :: rest)) hbl
      (by simp only [renderFields, renderMember, List.length_append] at hf; omega)
      (numEnd_members p l l2 _ rest)
    have ih := parseFields_render p (m :: ms) (List.cons_ne_nil _ _) l l2 f (indent p l) rest
      ((k, v) :: acc) (blank_indent p l)
      (by obtain ⟨k2, v2⟩ := m
          simp only [renderFields, renderMember, render.renderMembers, List.length_append,
            List.length_cons] at hf ⊢
          omega)
    simp only [renderFields, renderMember, List.append_assoc] at ih ⊢
    rw [ht, parseMembers, hw, skipWs_cons _ _ (by decide)]
    simp only [if_true, hk]
    rw [hwc, List.cons_append, skipWs_cons _ _ (by decide)]
    simp only [if_true, hv]
    obtain ⟨k2, v2⟩ := m
    simp only [render.renderMembers, renderFields, renderMember, List.cons_append,
      List.append_assoc] at ih ⊢
    rw [skipWs_cons _ _ (by decide)]
    simp only [if_true]
    rw [ih]
    simp
end

theorem parse_render (p : Bool) (v : JVal) : parse (String.mk (render p 0 v)) = some v := by
  have h := parseValue_render p v 0 ((render p 0 v).length + 1) [] [] blank_nil
    (Nat.le_succ _) rfl
  simp only [List.nil_append, List.append_nil] at h
  simp only [parse, String.length, h, skipWs, if_true]

/-- `JSON.parse(JSON.stringify(v))` gives `v` back. -/
theorem parse_stringify (v : JVal) : parse (stringify v) = some v :=
  parse_render false v

/-- `JSON.parse(JSON.stringify(v, null, 2))` gives `v` back. -/
theorem parse_stringifyIndent2 (v : JVal) : parse (stringifyIndent2 v) = some v :=
  parse_render true v

theorem stringify_ne_empty (v : JVal) : stringify v ≠ "" := by
  obtain ⟨c, t, h, _⟩ := render_head false 0 v
  intro he
  have := congrArg String.data he
  simp only [stringify, h] at this
  exact absurd this (by simp)

end JSON

namespace Script

open JSON

/-! ## The local store -/

theorem getItem_insert (st : Storage) (k v : String) :
    (st.insert k v).getItem k = some v := by
  simp [Storage.getItem, Storage.insert, List.lookup]

theorem insert_insert (st : Storage) (k v : String) :
    (st.insert k v).insert k v = st.insert k v := by
  simp [Storage.insert, List.filter_filter]

/-! ## Chapter objects read back from the cache -/

theorem verse_ofJVal_toJVal (a : Verse) : Verse.ofJVal a.toJVal = some a := by
  simp [Verse.ofJVal, Verse.toJVal, JVal.get, List.lookup]

theorem versesOfJVals_map (l : List Verse) : versesOfJVals (l.map Verse.toJVal) = some l := by
  induction l with
  | nil => rfl
  | cons a l ih => simp [versesOfJVals, verse_ofJVal_toJVal, ih]

theorem surah_ofJVal_toJVal (s : Surah) : Surah.ofJVal s.toJVal = some s := by
  simp [Surah.ofJVal, Surah.toJVal, JVal.get, List.lookup, versesOfJVals_map]

theorem readCache_written (store : Storage) (number : Int) (s : Surah) :
    readCache (store.insert (cacheKey number) (stringify s.toJVal)) number = .hit s := by
  have ht : (Surah.toJVal s).truthy = true := rfl
  simp only [readCache, getItem_insert, stringify_ne_empty, if_false, parse_stringify, ht,
    if_true, surah_ofJVal_toJVal]

theorem readCache_absent (store : Storage) (number : Int)
    (h : store.getItem (cacheKey number) = none) : readCache store number = .miss := by
  simp [readCache, h]

/-! ## Opening a chapter -/

theorem showSurah_spec (number : Int) (s : Surah) (env : Env) (st : State) :
    (showSurah number s env st).1.currentSurah = some s ∧
    (showSurah number s env st).1.currentAyahIndex = 0 ∧
    (showSurah number s env st).1.localStorage = st.localStorage ∧
    (showSurah number s env st).1.verses = .rows (surahRows s) ∧
    (∀ m, Effect.fetchText m ∉ (showSurah number s env st).2 ∧
      Effect.fetchTranslation m ∉ (showSurah number s env st).2) := by
  unfold showSurah warmRecitationAudio audioArrived renderSurah
  cases env.audio with
  | none => simp
  | some urls =>
    cases hh : urls.head? with
    | none => simp [hh]
    | some u => by_cases h : env.hasCaches = true ∧ u ≠ "" <;> simp [hh, h]

theorem openSurah_hit (number : Int) (env : Env) (st : State) (s : Surah)
    (h : readCache st.localStorage number = .hit s) :
    ∃ st2 e2, openSurah number env st = some (st2, e2) ∧
      st2.currentSurah = some s ∧ st2.currentAyahIndex = 0 ∧
      st2.verses = .rows (surahRows s) ∧ st2.localStorage = st.localStorage ∧
      (∀ m, Effect.fetchText m ∉ e2 ∧ Effect.fetchTranslation m ∉ e2) := by
  obtain ⟨c, i, l, v, f⟩ := showSurah_spec number s env { st with verses := .message "Loading…" }
  refine ⟨_, _, ?_, c, i, v, l, f⟩
  simp [openSurah, h]

theorem openSurah_miss (number : Int) (env : Env) (st : State) (text : TextResponse)
    (translation : TranslationResponse) (h : readCache st.localStorage number = .miss)
    (hText : env.text = some text) (hTrans : env.translation = some translation) :
    ∃ st1 e1, openSurah number env st = some (st1, e1) ∧
      st1.currentSurah = some (buildSurah text translation) ∧ st1.currentAyahIndex = 0 ∧
      st1.verses = .rows (surahRows (buildSurah text translation)) ∧
      st1.localStorage =
        (if env.storageWritable = true then
          st.localStorage.insert (cacheKey number)
            (stringify (buildSurah text translation).toJVal)
        else st.localStorage) ∧
      Effect.fetchText number ∈ e1 ∧ Effect.fetchTranslation number ∈ e1 := by
  cases hw : env.storageWritable with
  | true =>
    obtain ⟨c, i, l, v, _⟩ := showSurah_spec number (buildSurah text translation) env
      { st with
        verses := .message "Loading…"
        localStorage := st.localStorage.insert (cacheKey number)
          (stringify (buildSurah text translation).toJVal) }
    refine ⟨_, .fetchText number :: .fetchTranslation number ::
      (showSurah number (buildSurah text translation) env
        { st with
          verses := .message "Loading…"
          localStorage := st.localStorage.insert (cacheKey number)
            (stringify (buildSurah text translation).toJVal) }).2, ?_, c, i, v, ?_, ?_, ?_⟩
    · simp only [openSurah, h, hText, hTrans, Storage.setItem, hw, if_true]
    · simpa using l
    · simp
    · simp
  | false =>
    obtain ⟨c, i, l, v, _⟩ := showSurah_spec number (buildSurah text translation) env
      { st with verses := .message "Loading…" }
    refine ⟨_, .fetchText number :: .fetchTranslation number ::
      (showSurah number (buildSurah text translation) env
        { st with verses := .message "Loading…" }).2, ?_, c, i, v, ?_, ?_, ?_⟩
    · simp [openSurah, h, hText, hTrans, Storage.setItem, hw]
    · simpa using l
    · simp
    · simp

/-- C1, as stated, fails: on a store that refuses the cache write, chapter 1
opened with both responses successful leaves no entry behind, and the second
open issues the original-text and the translation request again. -/
theorem openSurah_refetches_after_refused_write :
    openSurah 1 fullStoreEnv startState =
      some (uncachedState,
        [.fetchText 1, .fetchTranslation 1, .fetchAudio 1 "ar.alafasy",
          .precache "https://cdn.example/1.mp3"]) ∧
    startState.localStorage.getItem (cacheKey 1) = none ∧
    uncachedState.localStorage.getItem (cacheKey 1) = none ∧
    (openSurah 1 fullStoreEnv uncachedState).map Prod.snd =
      some [.fetchText 1, .fetchTranslation 1, .fetchAudio 1 "ar.alafasy",
        .precache "https://cdn.example/1.mp3"] :=
  ⟨rfl, rfl, rfl, rfl⟩

/-- C1, amended: a chapter opened on a store without an entry for it, with both
responses successful and the cache write of that run taken by the store, and
opened again: the second run issues no original-text or translation request,
and the chapter it puts into `state.currentSurah` (and renders) is the one the
first run built. -/
theorem openSurah_twice_served_from_cache (number : Int) (env1 env2 : Env) (st0 : State)
    (text : TextResponse) (translation : TranslationResponse)
    (hAbsent : st0.localStorage.getItem (cacheKey number) = none)
    (hText : env1.text = some text) (hTrans : env1.translation = some translation)
    (hWrite : env1.storageWritable = true) :
    ∃ st1 e1 st2 e2,
      openSurah number env1 st0 = some (st1, e1) ∧
      openSurah number env2 st1 = some (st2, e2) ∧
      (∀ m, Effect.fetchText m ∉ e2 ∧ Effect.fetchTranslation m ∉ e2) ∧
      st1.currentSurah = some (buildSurah text translation) ∧
      st2.currentSurah = st1.currentSurah ∧
      st2.verses = st1.verses := by
  obtain ⟨st1, e1, h1, c1, _, v1, l1, _⟩ := openSurah_miss number env1 st0 text translation
    (readCache_absent _ _ hAbsent) hText hTrans
  rw [if_pos hWrite] at l1
  have hhit : readCache st1.localStorage number = .hit (buildSurah text translation) := by
    rw [l1]
    exact readCache_written _ _ _
  obtain ⟨st2, e2, h2, c2, _, v2, _, f2⟩ := openSurah_hit number env2 st1 _ hhit
  exact ⟨st1, e1, st2, e2, h1, h2, f2, c1, by rw [c2, c1], by rw [v2, v1]⟩

theorem openSurah_twice_served_from_cache_witness :
    ∃ st1 e1 st2 e2,
      openSurah 1 sampleEnv startState = some (st1, e1) ∧
      openSurah 1 sampleEnv st1 = some (st2, e2) ∧
      (∀ m, Effect.fetchText m ∉ e2 ∧ Effect.fetchTranslation m ∉ e2) ∧
      st1.currentSurah = some (buildSurah sampleText sampleTranslation) ∧
      st2.currentSurah = st1.currentSurah ∧
      st2.verses = st1.verses :=
  openSurah_twice_served_from_cache 1 sampleEnv sampleEnv startState sampleText
    sampleTranslation (by decide) rfl rfl rfl

/-! ## The merge of original text and translation -/

theorem mergeAyahs_length (tr : List TranslationAyah) :
    ∀ (ayahs : List TextAyah) (k : Nat), (mergeAyahs tr k ayahs).length = ayahs.length := by
  intro ayahs
  induction ayahs with
  | nil => intro k; rfl
  | cons a rest ih => intro k; simp [mergeAyahs, ih]

theorem mergeAyahs_getElem? (tr : List TranslationAyah) :
    ∀ (ayahs : List TextAyah) (k i : Nat) (a : TextAyah), ayahs[i]? = some a →
      (mergeAyahs tr k ayahs)[i]? =
        some ⟨a.numberInSurah, a.text, ((tr[k + i]?).map TranslationAyah.text).getD ""⟩ := by
  intro ayahs
  induction ayahs with
  | nil => intro k i a h; simp at h
  | cons b rest ih =>
    intro k i a h
    cases i with
    | zero =>
      simp only [List.getElem?_cons_zero, Option.some.injEq] at h
      subst h
      simp only [mergeAyahs, List.getElem?_cons_zero, Nat.add_zero]
      cases htr : tr[k]? with
      | none => rfl
      | some t =>
        by_cases ht : t.text = ""
        · simp [ht]
        · simp [ht]
    | succ i =>
      simp only [List.getElem?_cons_succ] at h
      simp only [mergeAyahs, List.getElem?_cons_succ]
      rw [ih (k + 1) i a h]
      have : k + 1 + i = k + (i + 1) := by omega
      rw [this]

/-- C8: on a cache miss with successful responses `openSurah` returns, and the
chapter it builds has the number, name and display name of the original-text
response and as many verses as that response, in its order; verse `i` carries
the number and text of the original verse `i` and the translation text at
position `i`, or the empty string where the translation has no such position
(an empty translation text is the empty string as well). -/
theorem openSurah_miss_merges_by_position (number : Int) (env : Env) (st : State)
    (text : TextResponse) (translation : TranslationResponse)
    (hMiss : readCache st.localStorage number = .miss)
    (hText : env.text = some text) (hTrans : env.translation = some translation) :
    ∃ st1 effs s, openSurah number env st = some (st1, effs) ∧
      st1.currentSurah = some s ∧
      s.number = text.number ∧ s.name = text.name ∧ s.englishName = text.englishName ∧
      s.ayahs.length = text.ayahs.length ∧
      ∀ (i : Nat) (a : TextAyah), text.ayahs[i]? = some a →
        s.ayahs[i]? = some
          { numberInSurah := a.numberInSurah
            text := a.text
            translation := ((translation.ayahs[i]?).map TranslationAyah.text).getD "" } := by
  obtain ⟨st1, e1, h1, c1, _⟩ := openSurah_miss number env st text translation hMiss hText hTrans
  refine ⟨st1, e1, buildSurah text translation, h1, c1, rfl, rfl, rfl, ?_, ?_⟩
  · exact mergeAyahs_length _ _ _
  · intro i a ha
    have := mergeAyahs_getElem? translation.ayahs text.ayahs 0 i a ha
    simpa [buildSurah] using this

theorem openSurah_miss_merges_by_position_witness :
    ∃ st1 effs s, openSurah 1 sampleEnv startState = some (st1, effs) ∧
      st1.currentSurah = some s ∧
      s.number = sampleText.number ∧ s.name = sampleText.name ∧
      s.englishName = sampleText.englishName ∧
      s.ayahs.length = sampleText.ayahs.length ∧
      ∀ (i : Nat) (a : TextAyah), sampleText.ayahs[i]? = some a →
        s.ayahs[i]? = some
          { numberInSurah := a.numberInSurah
            text := a.text
            translation :=
              ((sampleTranslation.ayahs[i]?).map TranslationAyah.text).getD "" } :=
  openSurah_miss_merges_by_position 1 sampleEnv startState sampleText sampleTranslation
    (by decide) rfl rfl

/-! ## Bookmarks -/

theorem tagsOfJVals_map (tags : List String) : tagsOfJVals (tags.map JVal.str) = some tags := by
  induction tags with
  | nil => rfl
  | cons t tags ih => simp [tagsOfJVals, ih]

theorem tagsOfJVals_eq_some : ∀ (xs : List JVal) (tags : List String),
    tagsOfJVals xs = some tags → xs = tags.map JVal.str := by
  intro xs
  induction xs with
  | nil =>
    intro tags h
    simp only [tagsOfJVals, Option.some.injEq] at h
    subst h
    rfl
  | cons x xs ih =>
    intro tags h
    cases x with
    | str s =>
      simp only [tagsOfJVals] at h
      cases hxs : tagsOfJVals xs with
      | none => rw [hxs] at h; simp at h
      | some ts =>
        rw [hxs] at h
        simp only [Option.some.injEq] at h
        subst h
        simp [ih ts hxs]
    | null => simp [tagsOfJVals] at h
    | bool b => simp [tagsOfJVals] at h
    | num n => simp [tagsOfJVals] at h
    | arr ys => simp [tagsOfJVals] at h
    | obj ms => simp [tagsOfJVals] at h

theorem includesTag_map (tags : List String) (t : String) :
    includesTag (tags.map JVal.str) t = decide (t ∈ tags) := by
  induction tags with
  | nil => rfl
  | cons a tags ih =>
    simp only [includesTag, List.map_cons, List.any_cons] at ih ⊢
    rw [ih]
    by_cases h : a = t
    · simp [h]
    · have h2 : ¬ t = a := fun e => h e.symm
      simp [h, h2]

theorem readBookmarks_written (store : Storage) (v : JVal) :
    readBookmarks (store.insert BK (stringify v)) = some v := by
  simp only [readBookmarks, getItem_insert, stringify_ne_empty, if_false, parse_stringify]

theorem storedTags_arr (store : Storage) (tags : List String)
    (h : storedTags store = some tags) :
    readBookmarks store = some (.arr (tags.map JVal.str)) := by
  unfold storedTags at h
  split at h
  · next xs hx => rw [hx, tagsOfJVals_eq_some xs tags h]
  · exact absurd h (by simp)

theorem storedTags_written (store : Storage) (tags : List String) :
    storedTags (store.insert BK (stringify (.arr (tags.map JVal.str)))) = some tags := by
  simp only [storedTags, readBookmarks_written, tagsOfJVals_map]

/-- The list `addBookmark(t)` writes back for the stored list `tags`. -/
theorem addBookmark_stored (store : Storage) (tags : List String) (t : String) (env : Env)
    (h : storedTags store = some tags) :
    addBookmark t env store =
      (if env.storageWritable = true then
        store.insert BK
          (stringify (.arr ((if t ∈ tags then tags else tags ++ [t]).map JVal.str)))
      else store) := by
  simp only [addBookmark, storedTags_arr store tags h, includesTag_map, writeBookmarks,
    Storage.setItem]
  cases env.storageWritable <;> by_cases ht : t ∈ tags <;> simp [ht]

theorem storedTags_addBookmark (store : Storage) (tags : List String) (t : String) (env : Env)
    (h : storedTags store = some tags) :
    storedTags (addBookmark t env store) =
      some (if env.storageWritable = true then (if t ∈ tags then tags else tags ++ [t])
        else tags) := by
  rw [addBookmark_stored store tags t env h]
  cases env.storageWritable with
  | true => simpa using storedTags_written store _
  | false => simpa using h

theorem added_spec (tags : List String) (t : String) (hNodup : tags.Nodup) :
    (if t ∈ tags then tags else tags ++ [t]).Nodup ∧
    (if t ∈ tags then tags else tags ++ [t]).count t = 1 ∧
    t ∈ (if t ∈ tags then tags else tags ++ [t]) ∧
    (if t ∈ tags then tags else tags ++ [t]).filter (fun x => x ≠ t) =
      tags.filter (fun x => x ≠ t) := by
  by_cases ht : t ∈ tags
  · rw [if_pos ht]
    exact ⟨hNodup, List.count_eq_one_of_mem hNodup ht, ht, rfl⟩
  · rw [if_neg ht]
    refine ⟨List.Nodup.append hNodup (List.nodup_singleton t) (by simpa using ht), ?_,
      by simp, by simp [List.filter_append]⟩
    simp only [List.count_append, List.count_singleton_self]
    rw [List.count_eq_zero_of_not_mem ht]

/-- C2, as stated, fails: on a store that refuses every write, `addBookmark`
applied twice to the empty list leaves it empty, without the tag. -/
theorem addBookmark_refused_write_stores_nothing :
    storedTags [] = some [] ∧
    storedTags (addBookmark "1:1" fullStoreEnv (addBookmark "1:1" fullStoreEnv [])) =
      some [] := by
  decide

/-- C2, amended: on a stored bookmark list without duplicates, after
`addBookmark(t)` is applied twice the stored list has no duplicates, holds `t`
at most once, and its entries other than `t` are those of the original list in
their order; where the store takes the write of the first application, the list
holds `t` exactly once and the second application changes nothing in the
store. -/
theorem addBookmark_twice_unique (store : Storage) (tags : List String) (t : String)
    (env1 env2 : Env) (hStored : storedTags store = some tags) (hNodup : tags.Nodup) :
    ∃ tags2, storedTags (addBookmark t env2 (addBookmark t env1 store)) = some tags2 ∧
      tags2.Nodup ∧ tags2.count t ≤ 1 ∧
      tags2.filter (fun x => x ≠ t) = tags.filter (fun x => x ≠ t) ∧
      (env1.storageWritable = true →
        tags2.count t = 1 ∧
        addBookmark t env2 (addBookmark t env1 store) = addBookmark t env1 store) := by
  obtain ⟨an, ac, am, af⟩ := added_spec tags t hNodup
  have hs1 := storedTags_addBookmark store tags t env1 hStored
  cases hw1 : env1.storageWritable with
  | true =>
    simp only [hw1, if_true] at hs1
    have hs2 := storedTags_addBookmark _ _ t env2 hs1
    have h2 := addBookmark_stored _ _ t env2 hs1
    simp only [am, if_true] at hs2 h2
    have hsame : addBookmark t env2 (addBookmark t env1 store) = addBookmark t env1 store := by
      rw [h2]
      cases env2.storageWritable with
      | false => rfl
      | true =>
        simp only [if_true]
        conv_lhs => rw [addBookmark_stored store tags t env1 hStored]
        conv_rhs => rw [addBookmark_stored store tags t env1 hStored]
        simp only [hw1, if_true]
        exact insert_insert _ _ _
    refine ⟨_, ?_, an, Nat.le_of_eq ac, af, fun _ => ⟨ac, hsame⟩⟩
    rw [hs2]
    cases env2.storageWritable <;> rfl
  | false =>
    simp only [hw1] at hs1
    have hs2 := storedTags_addBookmark _ _ t env2 hs1
    cases hw2 : env2.storageWritable with
    | true =>
      simp only [hw2, if_true] at hs2
      exact ⟨_, hs2, an, Nat.le_of_eq ac, af, fun h => absurd h (by simp)⟩
    | false =>
      simp only [hw2] at hs2
      exact ⟨_, hs2, hNodup, List.nodup_iff_count_le_one.1 hNodup t, rfl,
        fun h => absurd h (by simp)⟩

theorem addBookmark_twice_unique_witness :
    ∃ tags2,
      storedTags (addBookmark "1:2" sampleEnv
        (addBookmark "1:2" sampleEnv (addBookmark "1:1" sampleEnv []))) = some tags2 ∧
      tags2.Nodup ∧ tags2.count "1:2" ≤ 1 ∧
      tags2.filter (fun x => x ≠ "1:2") = ["1:1"].filter (fun x => x ≠ "1:2") ∧
      tags2.count "1:2" = 1 ∧
      addBookmark "1:2" sampleEnv
          (addBookmark "1:2" sampleEnv (addBookmark "1:1" sampleEnv [])) =
        addBookmark "1:2" sampleEnv (addBookmark "1:1" sampleEnv []) :=
  (addBookmark_twice_unique (addBookmark "1:1" sampleEnv []) ["1:1"] "1:2" sampleEnv sampleEnv
    (by decide) (by decide)).imp
    fun _ h => ⟨h.1, h.2.1, h.2.2.1, h.2.2.2.1, (h.2.2.2.2 rfl).1, (h.2.2.2.2 rfl).2⟩

theorem renderElems_tags (ts : List String) :
    render.renderElems true 1 (ts.map JVal.str) = tagLines ts := by
  induction ts with
  | nil => rfl
  | cons t ts ih =>
    simp only [List.map_cons, render.renderElems, render, tagLines, ih]
    rfl

theorem stringifyIndent2_tags (tags : List String) :
    stringifyIndent2 (.arr (tags.map JVal.str)) = prettyTags tags := by
  cases tags with
  | nil => rfl
  | cons t ts =>
    simp only [stringifyIndent2, List.map_cons, render, Nat.zero_add, renderElems_tags,
      prettyTags]
    rfl

/-- C7, as stated, fails: after adding the bookmark "1:1" to an empty store the
exported file is not the compact text `["1:1"]`. -/
theorem exportBookmarks_not_compact :
    exportBookmarks (addBookmark "1:1" sampleEnv []) ≠ [.download "bookmarks.json" "[\"1:1\"]"] := by
  decide

/-- C7, amended: the exported file `bookmarks.json` holds the stored tags as a
JSON array written with an indent of two spaces, one tag per line in stored
order; read back with `JSON.parse` it is the array of the stored tags.  After
adding "1:1" to an empty store its content is `[`, a line break, two spaces,
`"1:1"`, a line break and `]`. -/
theorem exportBookmarks_pretty (store : Storage) (tags : List String)
    (hStored : storedTags store = some tags) :
    exportBookmarks store = [.download "bookmarks.json" (prettyTags tags)] ∧
    JSON.parse (prettyTags tags) = some (.arr (tags.map JVal.str)) ∧
    exportBookmarks (addBookmark "1:1" sampleEnv []) =
      [.download "bookmarks.json" "[\n  \"1:1\"\n]"] := by
  refine ⟨?_, ?_, by decide⟩
  · simp only [exportBookmarks, storedTags_arr store tags hStored, stringifyIndent2_tags]
  · rw [← stringifyIndent2_tags]
    exact parse_stringifyIndent2 _

theorem exportBookmarks_pretty_witness :
    exportBookmarks (addBookmark "1:1" sampleEnv []) =
      [.download "bookmarks.json" (prettyTags ["1:1"])] ∧
    JSON.parse (prettyTags ["1:1"]) = some (.arr (["1:1"].map JVal.str)) ∧
    exportBookmarks (addBookmark "1:1" sampleEnv []) =
      [.download "bookmarks.json" "[\n  \"1:1\"\n]"] :=
  exportBookmarks_pretty (addBookmark "1:1" sampleEnv []) ["1:1"] (by decide)

/-! ## Clearing the cache -/

/-- C6, as stated, fails: in a browser without the Cache API `clearAllCaches`
leaves the chapter cache and the bookmark list in the local store and requests
no reload. -/
theorem clearAllCaches_without_cache_api :
    (clearAllCaches noCacheApiEnv bookmarkedState).1.localStorage.getItem BK =
      some "[\"1:1\"]" ∧
    (clearAllCaches noCacheApiEnv bookmarkedState).1.localStorage.getItem (cacheKey 1) ≠
      none ∧
    Effect.reload ∉ (clearAllCaches noCacheApiEnv bookmarkedState).2 := by
  decide

/-- C6, amended: where the browser offers the Cache API, `clearAllCaches`
deletes every named cache, empties the local store (chapter cache and bookmark
list alike) and requests a reload; where it does not, the handler only raises
the notice that the Cache API is not supported and changes nothing. -/
theorem clearAllCaches_gated (env : Env) (st : State) :
    (env.hasCaches = true →
      (∀ key, (clearAllCaches env st).1.localStorage.getItem key = none) ∧
      (∀ name ∈ env.cacheNames, Effect.deleteCache name ∈ (clearAllCaches env st).2) ∧
      Effect.reload ∈ (clearAllCaches env st).2) ∧
    (env.hasCaches = false →
      clearAllCaches env st = (st, [.alert "Cache API not supported"])) := by
  constructor
  · intro h
    simp only [clearAllCaches, h, if_true]
    refine ⟨fun key => rfl, fun name hn => ?_, by simp⟩
    simp [hn]
  · intro h
    simp [clearAllCaches, h]

theorem clearAllCaches_gated_witness :
    ((∀ key, (clearAllCaches sampleEnv bookmarkedState).1.localStorage.getItem key = none) ∧
      (∀ name ∈ sampleEnv.cacheNames,
        Effect.deleteCache name ∈ (clearAllCaches sampleEnv bookmarkedState).2) ∧
      Effect.reload ∈ (clearAllCaches sampleEnv bookmarkedState).2) ∧
    clearAllCaches noCacheApiEnv bookmarkedState =
      (bookmarkedState, [.alert "Cache API not supported"]) :=
  ⟨(clearAllCaches_gated sampleEnv bookmarkedState).1 rfl,
    (clearAllCaches_gated noCacheApiEnv bookmarkedState).2 rfl⟩

/-! ## End of the chapter -/

/-- C3 on the code: with the last verse of the open chapter playing, `playNext`
(the handler of the next control and of the `ended` event) raises the notice
and starts nothing, the index stays, and `state.playing` is still true. -/
theorem playNext_at_last_verse_keeps_playing :
    lastVersePlaying.currentSurah.map (fun s => s.ayahs.length) = some 2 ∧
    lastVersePlaying.currentAyahIndex = 1 ∧
    playNext sampleEnv lastVersePlaying = (lastVersePlaying, [.alert "End of surah"]) ∧
    (playNext sampleEnv lastVersePlaying).1.playing = true :=
  ⟨rfl, rfl, rfl, rfl⟩

/-! ## Search over the chapter list -/

/-- C10 on the code: with no chapter open, a query that matches no chapter
hides the row, and the empty query entered afterwards leaves it hidden. -/
theorem search_empty_query_keeps_rows_hidden :
    listState.currentSurah = none ∧
    listState.surahRowHidden = [false] ∧
    (search asciiLower "zzz" listState).surahRowHidden = [true] ∧
    (search asciiLower "" (search asciiLower "zzz" listState)).surahRowHidden = [true] := by
  decide

/-! ## Search inside the open chapter -/

theorem includesChars_iff (hay needle : List Char) :
    includesChars hay needle = true ↔ needle <:+: hay := by
  induction hay with
  | nil => simp [includesChars, List.isEmpty_iff]
  | cons c hay ih =>
    rw [List.infix_cons_iff, ← ih]
    simp [includesChars]

theorem includes_iff (hay needle : String) :
    includes hay needle = true ↔ needle.data <:+: hay.data :=
  includesChars_iff _ _

/-- C9, as stated, fails: a verse whose original text is `ABC` contains the
query `b` when letter case is ignored on both sides, yet `search` renders no
row for it. -/
theorem search_original_text_case_sensitive :
    (search asciiLower "b" capitalsState).verses = .rows [] ∧
    capitalsState.currentSurah.map
        (fun s => s.ayahs.filter (matchesIgnoringCase asciiLower "b")) =
      some [⟨1, "ABC", "xyz"⟩] := by
  decide

/-- C9, amended: with a chapter open and a non-empty query `q`, the rows
`search(q)` renders are exactly the verses of the open chapter, in chapter
order, whose original text as it stands contains the lower-cased `q`, or whose
translated text is not empty and in lower case contains the lower-cased `q`;
the rows carry no play or bookmark action, and the open chapter is unchanged. -/
theorem search_open_chapter_rows (toLowerCase : String → String) (q : String) (st : State)
    (s : Surah) (hOpen : st.currentSurah = some s) (hq : q ≠ "") :
    (search toLowerCase q st).verses =
      .rows ((s.ayahs.filter fun a =>
          decide ((toLowerCase q).data <:+: a.text.data ∨
            (a.translation ≠ "" ∧
              (toLowerCase q).data <:+: (toLowerCase a.translation).data))).map
        fun a => ⟨a, none⟩) ∧
    (search toLowerCase q st).currentSurah = some s := by
  have hf : (fun a : Verse =>
        decide ((toLowerCase q).data <:+: a.text.data ∨
          (a.translation ≠ "" ∧
            (toLowerCase q).data <:+: (toLowerCase a.translation).data))) =
      verseMatches toLowerCase (toLowerCase q) := by
    funext a
    rw [Bool.eq_iff_iff]
    simp [verseMatches, includes_iff]
  rw [hf]
  simp [search, hq, hOpen]

theorem search_open_chapter_rows_witness :
    (search asciiLower "NAME" openedState).verses =
      .rows (((buildSurah sampleText sampleTranslation).ayahs.filter fun a =>
          decide ((asciiLower "NAME").data <:+: a.text.data ∨
            (a.translation ≠ "" ∧
              (asciiLower "NAME").data <:+: (asciiLower a.translation).data))).map
        fun a => ⟨a, none⟩) ∧
    (search asciiLower "NAME" openedState).currentSurah =
      some (buildSurah sampleText sampleTranslation) :=
  search_open_chapter_rows asciiLower "NAME" openedState
    (buildSurah sampleText sampleTranslation) rfl (by decide)

/-! ## Playback -/

theorem audioArrived_spec (sn : Int) (reciter : String) (env : Env) (st : State) :
    (audioArrived sn reciter env st).1.currentSurah = st.currentSurah ∧
    (audioArrived sn reciter env st).1.currentAyahIndex = st.currentAyahIndex ∧
    (audioArrived sn reciter env st).1.currentReciter = st.currentReciter ∧
    (audioArrived sn reciter env st).1.playing = st.playing ∧
    (∀ url, Effect.audioPlay url ∉ (audioArrived sn reciter env st).2) ∧
    ((audioArrived sn reciter env st).1.currentAudioList.urls ≠ [] →
      (audioArrived sn reciter env st).1.currentAudioList.surah = some sn ∧
      (audioArrived sn reciter env st).1.currentAudioList.reciter = some reciter) := by
  unfold audioArrived
  cases env.audio with
  | none => simp
  | some urls =>
    cases hh : urls.head? with
    | none => simp [hh]
    | some u => by_cases h : env.hasCaches = true ∧ u ≠ "" <;> simp [hh, h]

theorem audioAt_some (l : AudioList) (index : Int) (url : String)
    (h : audioAt l index = some url) : l.urls ≠ [] := by
  intro he
  simp [audioAt, he] at h

/-- The lines of `playAyah` after the list is settled either start nothing and
leave the state alone, or start the URL at `index` of the list in the state and
move the index there. -/
theorem playAyahTail_spec (index : Int) (env : Env) (st : State) :
    ((∀ url, Effect.audioPlay url ∉ (playAyahTail index env st).2) ∧
        (playAyahTail index env st).1 = st) ∨
      (∃ url, url ≠ "" ∧
        (∀ u, Effect.audioPlay u ∈ (playAyahTail index env st).2 ↔ u = url) ∧
        audioAt st.currentAudioList index = some url ∧
        (playAyahTail index env st).1 =
          { st with audioSrc := url, playing := true, currentAyahIndex := index }) := by
  cases ha : audioAt st.currentAudioList index with
  | none =>
    have hp : playAyahTail index env st =
        (st, [.alert "Audio not available for this reciter/surah via API."]) := by
      simp only [playAyahTail, ha]
    rw [hp]
    exact Or.inl ⟨fun url => by simp, rfl⟩
  | some url =>
    by_cases hu : url = ""
    · have hp : playAyahTail index env st =
          (st, [.alert "Audio not available for this reciter/surah via API."]) := by
        simp only [playAyahTail, ha, hu, if_true]
      rw [hp]
      exact Or.inl ⟨fun url => by simp, rfl⟩
    · have hp : playAyahTail index env st =
          ({ (playUrl url env st).1 with currentAyahIndex := index },
            (playUrl url env st).2) := by
        simp only [playAyahTail, ha, hu, if_false]
      rw [hp]
      refine Or.inr ⟨url, hu, fun u => ?_, rfl, rfl⟩
      by_cases hb : env.playBlocked = true <;> simp [playUrl, hb, eq_comm]

/-- What `playAyah(index)` does with a chapter open when nothing happens during
its `await`: either it starts exactly one URL, element `index` of a list tagged
with the open chapter and the selected reciter, and moves the index there; or it
starts nothing and the index stays. -/
theorem playAyah_spec (index : Int) (env : Env) (st : State) (s : Surah)
    (hOpen : st.currentSurah = some s) :
    (playAyah index env st).1.currentSurah = some s ∧
    (playAyah index env st).1.currentReciter = st.currentReciter ∧
    ((st.currentAudioList.surah ≠ some s.number ∨
        st.currentAudioList.reciter ≠ some st.currentReciter) →
      Effect.fetchAudio s.number st.currentReciter ∈ (playAyah index env st).2) ∧
    (((∀ url, Effect.audioPlay url ∉ (playAyah index env st).2) ∧
        (playAyah index env st).1.currentAyahIndex = st.currentAyahIndex ∧
        (playAyah index env st).1.playing = st.playing) ∨
      (∃ url, url ≠ "" ∧
        (∀ u, Effect.audioPlay u ∈ (playAyah index env st).2 ↔ u = url) ∧
        audioAt (playAyah index env st).1.currentAudioList index = some url ∧
        (playAyah index env st).1.currentAudioList.surah = some s.number ∧
        (playAyah index env st).1.currentAudioList.reciter = some st.currentReciter ∧
        (playAyah index env st).1.audioSrc = url ∧
        (playAyah index env st).1.playing = true ∧
        (playAyah index env st).1.currentAyahIndex = index)) := by
  by_cases hc : st.currentAudioList.urls.length = 0 ∨ st.currentAudioList.surah ≠ some s.number ∨
      st.currentAudioList.reciter ≠ some st.currentReciter
  · obtain ⟨w1, w2, w3, w7, w5, w6⟩ := audioArrived_spec s.number st.currentReciter env st
    have hp : playAyah index env st =
        ((playAyahTail index env (audioArrived s.number st.currentReciter env st).1).1,
          [.fetchAudio s.number st.currentReciter] ++
            ((audioArrived s.number st.currentReciter env st).2 ++
              (playAyahTail index env (audioArrived s.number st.currentReciter env st).1).2)) := by
      simp only [playAyah, playAyahStart, hOpen, hc, if_true, playAyahResume]
    rw [hp]
    rcases playAyahTail_spec index env (audioArrived s.number st.currentReciter env st).1 with
      ⟨hno, hst⟩ | ⟨url, hu, hiff, hat, hst⟩
    · rw [hst]
      refine ⟨w1.trans hOpen, w3, fun _ => by simp, Or.inl ⟨?_, w2, w7⟩⟩
      intro url
      simp [w5 url, hno url]
    · obtain ⟨t1, t2⟩ := w6 (audioAt_some _ _ _ hat)
      rw [hst]
      refine ⟨w1.trans hOpen, w3, fun _ => by simp, Or.inr ⟨url, hu, ?_, hat, t1, t2, rfl, rfl,
        rfl⟩⟩
      intro u
      simp [w5 u, hiff u]
  · have hc2 := hc
    simp only [not_or, not_not, ne_eq] at hc2
    obtain ⟨hlen, hsurah, hrec⟩ := hc2
    have hp : playAyah index env st =
        ((playAyahTail index env st).1, (playAyahTail index env st).2) := by
      simp only [playAyah, playAyahStart, hOpen, hc, if_false]
    rw [hp]
    rcases playAyahTail_spec index env st with ⟨hno, hst⟩ | ⟨url, hu, hiff, hat, hst⟩
    · rw [hst]
      exact ⟨hOpen, rfl, fun h => absurd h (by simp [hsurah, hrec]), Or.inl ⟨hno, rfl, rfl⟩⟩
    · rw [hst]
      exact ⟨hOpen, rfl, fun h => absurd h (by simp [hsurah, hrec]),
        Or.inr ⟨url, hu, hiff, hat, hsurah, hrec, rfl, rfl, rfl⟩⟩

/-- C5, as stated, fails: `playAyah(0)` is called with chapter 1 open and an
empty audio list, asks for the list of chapter 1 and the reciter `ar.alafasy`,
and is suspended.  If chapter 2 is opened meanwhile, or the reciter `ar.husary`
selected, the answer still makes it play the first URL of the list tagged for
chapter 1 and `ar.alafasy`, with chapter 2 open or `ar.husary` selected. -/
theorem playAyah_plays_list_of_the_call :
    staleListState.currentSurah.map Surah.number = some 1 ∧
    staleListState.currentReciter = "ar.alafasy" ∧
    playAyahStart 0 sampleEnv staleListState =
      .suspended ⟨0, 1, "ar.alafasy"⟩ [.fetchAudio 1 "ar.alafasy"] ∧
    (Effect.audioPlay "https://cdn.example/1.mp3" ∈
        (playAyahResume ⟨0, 1, "ar.alafasy"⟩ sampleEnv otherChapterState).2 ∧
      (playAyahResume ⟨0, 1, "ar.alafasy"⟩ sampleEnv otherChapterState).1.currentSurah.map
        Surah.number = some 2 ∧
      (playAyahResume ⟨0, 1, "ar.alafasy"⟩ sampleEnv
        otherChapterState).1.currentAudioList.surah = some 1) ∧
    (Effect.audioPlay "https://cdn.example/1.mp3" ∈
        (playAyahResume ⟨0, 1, "ar.alafasy"⟩ sampleEnv otherReciterState).2 ∧
      (playAyahResume ⟨0, 1, "ar.alafasy"⟩ sampleEnv otherReciterState).1.currentReciter =
        "ar.husary" ∧
      (playAyahResume ⟨0, 1, "ar.alafasy"⟩ sampleEnv
        otherReciterState).1.currentAudioList.reciter = some "ar.alafasy") := by
  decide

/-- C5, amended: with a chapter open, `playAyah` asks for the audio list anew,
and waits for it, whenever the chapter tag of the list differs from the number
of the open chapter or its reciter tag differs from the selected reciter.
Whenever it starts a URL, that URL is element `index` of the audio list then in
the state, and the tags of that list are the number of the chapter that was open
and the reciter that was selected when `playAyah` was called: at once when no
request was needed, and after the wait in whatever state the script has reached
by then, since the list is not checked again after the wait. -/
theorem playAyah_list_scoped (index : Int) (env : Env) (st : State) (s : Surah)
    (hOpen : st.currentSurah = some s) :
    ((st.currentAudioList.surah ≠ some s.number ∨
        st.currentAudioList.reciter ≠ some st.currentReciter) →
      playAyahStart index env st =
        .suspended ⟨index, s.number, st.currentReciter⟩
          [.fetchAudio s.number st.currentReciter]) ∧
    (∀ st1 effs url, playAyahStart index env st = .finished st1 effs →
      Effect.audioPlay url ∈ effs →
      audioAt st1.currentAudioList index = some url ∧
      st1.currentAudioList.surah = some s.number ∧
      st1.currentAudioList.reciter = some st.currentReciter ∧
      st1.currentSurah = some s ∧ st1.currentReciter = st.currentReciter) ∧
    (∀ pending effs, playAyahStart index env st = .suspended pending effs →
      ∀ (envLater : Env) (stLater : State) (url : String),
        Effect.audioPlay url ∈ (playAyahResume pending envLater stLater).2 →
        audioAt (playAyahResume pending envLater stLater).1.currentAudioList index =
          some url ∧
        (playAyahResume pending envLater stLater).1.currentAudioList.surah =
          some s.number ∧
        (playAyahResume pending envLater stLater).1.currentAudioList.reciter =
          some st.currentReciter) := by
  refine ⟨?_, ?_, ?_⟩
  · intro h
    have hc : st.currentAudioList.urls.length = 0 ∨
        st.currentAudioList.surah ≠ some s.number ∨
        st.currentAudioList.reciter ≠ some st.currentReciter := Or.inr h
    simp only [playAyahStart, hOpen, hc, if_true]
  · intro st1 effs url hstart hplay
    by_cases hc : st.currentAudioList.urls.length = 0 ∨
        st.currentAudioList.surah ≠ some s.number ∨
        st.currentAudioList.reciter ≠ some st.currentReciter
    · simp only [playAyahStart, hOpen, hc, if_true] at hstart
      exact absurd hstart (by simp)
    · simp only [playAyahStart, hOpen, hc, if_false, PlayStart.finished.injEq] at hstart
      obtain ⟨rfl, rfl⟩ := hstart
      simp only [not_or, not_not, ne_eq] at hc
      obtain ⟨_, hsurah, hrec⟩ := hc
      rcases playAyahTail_spec index env st with ⟨hno, _⟩ | ⟨u, _, hiff, hat, hst⟩
      · exact absurd hplay (hno url)
      · have : url = u := (hiff url).1 hplay
        subst this
        rw [hst]
        exact ⟨hat, hsurah, hrec, hOpen, rfl⟩
  · intro pending effs hstart envLater stLater url hplay
    have hp : pending = ⟨index, s.number, st.currentReciter⟩ := by
      by_cases hc : st.currentAudioList.urls.length = 0 ∨
          st.currentAudioList.surah ≠ some s.number ∨
          st.currentAudioList.reciter ≠ some st.currentReciter
      · simp only [playAyahStart, hOpen, hc, if_true, PlayStart.suspended.injEq] at hstart
        exact hstart.1.symm
      · simp only [playAyahStart, hOpen, hc, if_false] at hstart
        exact absurd hstart (by simp)
    subst hp
    obtain ⟨_, _, _, _, w5, w6⟩ := audioArrived_spec s.number st.currentReciter envLater stLater
    simp only [playAyahResume] at hplay ⊢
    rcases playAyahTail_spec index envLater
        (audioArrived s.number st.currentReciter envLater stLater).1 with
      ⟨hno, _⟩ | ⟨u, _, hiff, hat, hst⟩
    · rcases List.mem_append.1 hplay with h | h
      · exact absurd h (w5 url)
      · exact absurd h (hno url)
    · have : url = u := by
        rcases List.mem_append.1 hplay with h | h
        · exact absurd h (w5 url)
        · exact (hiff url).1 h
      subst this
      obtain ⟨t1, t2⟩ := w6 (audioAt_some _ _ _ hat)
      rw [hst]
      exact ⟨hat, t1, t2⟩

theorem playAyah_list_scoped_witness :
    playAyahStart 0 sampleEnv staleListState =
      .suspended ⟨0, (buildSurah sampleText sampleTranslation).number,
          staleListState.currentReciter⟩
        [.fetchAudio (buildSurah sampleText sampleTranslation).number
          staleListState.currentReciter] ∧
    (audioAt (playAyahResume ⟨0, 1, "ar.alafasy"⟩ sampleEnv
        otherChapterState).1.currentAudioList 0 = some "https://cdn.example/1.mp3" ∧
      (playAyahResume ⟨0, 1, "ar.alafasy"⟩ sampleEnv
        otherChapterState).1.currentAudioList.surah =
          some (buildSurah sampleText sampleTranslation).number ∧
      (playAyahResume ⟨0, 1, "ar.alafasy"⟩ sampleEnv
        otherChapterState).1.currentAudioList.reciter =
          some staleListState.currentReciter) ∧
    (audioAt lastVersePlaying.currentAudioList 1 = some "https://cdn.example/2.mp3" ∧
      lastVersePlaying.currentAudioList.surah =
        some (buildSurah sampleText sampleTranslation).number ∧
      lastVersePlaying.currentAudioList.reciter = some openedState.currentReciter ∧
      lastVersePlaying.currentSurah = some (buildSurah sampleText sampleTranslation) ∧
      lastVersePlaying.currentReciter = openedState.currentReciter) :=
  ⟨(playAyah_list_scoped 0 sampleEnv staleListState
      (buildSurah sampleText sampleTranslation) rfl).1 (Or.inl (by decide)),
    (playAyah_list_scoped 0 sampleEnv staleListState
      (buildSurah sampleText sampleTranslation) rfl).2.2 ⟨0, 1, "ar.alafasy"⟩
      [.fetchAudio 1 "ar.alafasy"] rfl sampleEnv otherChapterState
      "https://cdn.example/1.mp3" (by decide),
    (playAyah_list_scoped 1 sampleEnv openedState
      (buildSurah sampleText sampleTranslation) rfl).2.1 lastVersePlaying
      [.audioPlay "https://cdn.example/2.mp3"] "https://cdn.example/2.mp3" rfl
      (by decide)⟩

/-! ## The playback position -/

theorem playAyah_inRange (n : Nat) (index : Int) (env : Env) (st : State)
    (h : InRange n st) (h0 : 0 ≤ index) (h1 : index ≤ (n : Int) - 1) :
    InRange n (playAyah index env st).1 := by
  obtain ⟨s, hs, hl, hlo, hhi⟩ := h
  obtain ⟨c, _, _, hcase⟩ := playAyah_spec index env st s hs
  refine ⟨s, c, hl, ?_⟩
  rcases hcase with ⟨_, hi, _⟩ | ⟨_, _, _, _, _, _, _, _, hi⟩
  · rw [hi]; exact ⟨hlo, hhi⟩
  · rw [hi]; exact ⟨h0, h1⟩

theorem playNext_inRange (n : Nat) (env : Env) (st : State) (h : InRange n st) :
    InRange n (playNext env st).1 := by
  obtain ⟨s, hs, hl, hlo, hhi⟩ := h
  by_cases hlt : st.currentAyahIndex < (s.ayahs.length : Int) - 1
  · have hp : playNext env st = playAyah (st.currentAyahIndex + 1) env st := by
      simp only [playNext, hs, hlt, if_true]
    rw [hp]
    exact playAyah_inRange n _ env st ⟨s, hs, hl, hlo, hhi⟩ (by omega) (by omega)
  · have hp : playNext env st = (st, [.alert "End of surah"]) := by
      simp only [playNext, hs, hlt, if_false]
    rw [hp]
    exact ⟨s, hs, hl, hlo, hhi⟩

theorem playPrev_inRange (n : Nat) (env : Env) (st : State) (h : InRange n st) :
    InRange n (playPrev env st).1 := by
  by_cases hgt : st.currentAyahIndex > 0
  · have hp : playPrev env st = playAyah (st.currentAyahIndex - 1) env st := by
      simp only [playPrev, hgt, if_true]
    rw [hp]
    obtain ⟨s, hs, hl, hlo, hhi⟩ := h
    exact playAyah_inRange n _ env st ⟨s, hs, hl, hlo, hhi⟩ (by omega) (by omega)
  · have hp : playPrev env st = (st, []) := by
      simp only [playPrev, hgt, if_false]
    rw [hp]
    exact h

theorem togglePlay_inRange (n : Nat) (env : Env) (st : State) (h : InRange n st) :
    InRange n (togglePlay env st).1 := by
  unfold togglePlay
  by_cases hp : st.playing = true
  · rw [if_pos hp]
    exact h
  · rw [if_neg hp]
    by_cases hsrc : st.audioSrc ≠ ""
    · rw [if_pos hsrc]
      exact h
    · rw [if_neg hsrc]
      obtain ⟨s, hs, hl, hlo, hhi⟩ := h
      have hidx : (if st.currentAyahIndex ≠ 0 then st.currentAyahIndex else 0) =
          st.currentAyahIndex := by
        by_cases hz : st.currentAyahIndex = 0 <;> simp [hz]
      rw [hidx]
      exact playAyah_inRange n _ env st ⟨s, hs, hl, hlo, hhi⟩ hlo hhi

theorem opened_inRange (n : Nat) (hn : 1 ≤ n) (number : Int) (env : Env) (st0 st : State)
    (effs : List Effect) (s : Surah) (ho : Opens number env st0 s)
    (h : openSurah number env st0 = some (st, effs)) (hl : s.ayahs.length = n) :
    InRange n st := by
  rcases ho with hhit | ⟨hmiss, text, translation, ht, htr, rfl⟩
  · obtain ⟨st2, e2, h2, c, i, _⟩ := openSurah_hit number env st0 s hhit
    rw [h2] at h
    simp only [Option.some.injEq, Prod.mk.injEq] at h
    obtain ⟨rfl, _⟩ := h
    exact ⟨s, c, hl, by rw [i], by rw [i]; omega⟩
  · obtain ⟨st1, e1, h1, c, i, _⟩ := openSurah_miss number env st0 text translation hmiss ht htr
    rw [h1] at h
    simp only [Option.some.injEq, Prod.mk.injEq] at h
    obtain ⟨rfl, _⟩ := h
    exact ⟨_, c, hl, by rw [i], by rw [i]; omega⟩

theorem reachable_inRange (n : Nat) (hn : 1 ≤ n) (st : State) (h : Reachable n st) :
    InRange n st := by
  induction h with
  | opened number env st0 st effs s ho h hl => exact opened_inRange n hn number env st0 st effs s ho h hl
  | step ev env st _ hidx ih =>
    cases ev with
    | playVerse idx =>
      have := hidx idx rfl
      exact playAyah_inRange n _ env st ih (by omega) (by omega)
    | next => exact playNext_inRange n env st ih
    | previous => exact playPrev_inRange n env st ih
    | toggle => exact togglePlay_inRange n env st ih
    | ended => exact playNext_inRange n env st ih

theorem playAyah_started_index (index : Int) (env : Env) (st : State)
    (h : ∃ url, Effect.audioPlay url ∈ (playAyah index env st).2) :
    (playAyah index env st).1.currentAyahIndex = index := by
  cases hs : st.currentSurah with
  | none =>
    obtain ⟨url, hurl⟩ := h
    simp [playAyah, playAyahStart, hs] at hurl
  | some s =>
    obtain ⟨_, _, _, hcase⟩ := playAyah_spec index env st s hs
    rcases hcase with ⟨hno, _⟩ | ⟨_, _, _, _, _, _, _, _, hi⟩
    · obtain ⟨url, hurl⟩ := h
      exact absurd hurl (hno url)
    · exact hi

/-- C4: in every state reachable from opening a chapter of `n ≥ 1` verses by
play-verse, next, previous, toggle-play and end-of-audio steps the playback
position satisfies `0 ≤ currentAyahIndex ≤ n - 1`; when next or previous starts
a verse the position has moved by exactly one; and previous at index 0 changes
no field of the state and has no effect. -/
theorem playback_position_in_range (n : Nat) (hn : 1 ≤ n) (st : State)
    (hReach : Reachable n st) (env : Env) :
    (0 ≤ st.currentAyahIndex ∧ st.currentAyahIndex ≤ (n : Int) - 1) ∧
    ((∃ url, Effect.audioPlay url ∈ (playNext env st).2) →
      (playNext env st).1.currentAyahIndex = st.currentAyahIndex + 1) ∧
    ((∃ url, Effect.audioPlay url ∈ (playPrev env st).2) →
      (playPrev env st).1.currentAyahIndex = st.currentAyahIndex - 1) ∧
    (st.currentAyahIndex = 0 → playPrev env st = (st, [])) := by
  obtain ⟨s, hs, hl, hlo, hhi⟩ := reachable_inRange n hn st hReach
  refine ⟨⟨hlo, hhi⟩, ?_, ?_, ?_⟩
  · intro h
    by_cases hlt : st.currentAyahIndex < (s.ayahs.length : Int) - 1
    · have hp : playNext env st = playAyah (st.currentAyahIndex + 1) env st := by
        simp only [playNext, hs, hlt, if_true]
      rw [hp] at h ⊢
      exact playAyah_started_index _ env st h
    · have hp : playNext env st = (st, [.alert "End of surah"]) := by
        simp only [playNext, hs, hlt, if_false]
      rw [hp] at h
      obtain ⟨url, hurl⟩ := h
      simp at hurl
  · intro h
    by_cases hgt : st.currentAyahIndex > 0
    · have hp : playPrev env st = playAyah (st.currentAyahIndex - 1) env st := by
        simp only [playPrev, hgt, if_true]
      rw [hp] at h ⊢
      exact playAyah_started_index _ env st h
    · have hp : playPrev env st = (st, []) := by
        simp only [playPrev, hgt, if_false]
      rw [hp] at h
      obtain ⟨url, hurl⟩ := h
      simp at hurl
  · intro h0
    simp [playPrev, h0]

theorem playback_position_in_range_witness :
    (0 ≤ lastVersePlaying.currentAyahIndex ∧
      lastVersePlaying.currentAyahIndex ≤ ((2 : Nat) : Int) - 1) ∧
    ((∃ url, Effect.audioPlay url ∈ (playNext sampleEnv lastVersePlaying).2) →
      (playNext sampleEnv lastVersePlaying).1.currentAyahIndex =
        lastVersePlaying.currentAyahIndex + 1) ∧
    ((∃ url, Effect.audioPlay url ∈ (playPrev sampleEnv lastVersePlaying).2) →
      (playPrev sampleEnv lastVersePlaying).1.currentAyahIndex =
        lastVersePlaying.currentAyahIndex - 1) ∧
    (lastVersePlaying.currentAyahIndex = 0 →
      playPrev sampleEnv lastVersePlaying = (lastVersePlaying, [])) :=
  playback_position_in_range 2 (by decide) lastVersePlaying
    (Reachable.step (.playVerse 1) sampleEnv openedState
      (Reachable.opened 1 sampleEnv startState openedState
        [.fetchText 1, .fetchTranslation 1, .fetchAudio 1 "ar.alafasy",
          .precache "https://cdn.example/1.mp3"]
        (buildSurah sampleText sampleTranslation)
        (Or.inr ⟨rfl, sampleText, sampleTranslation, rfl, rfl, rfl⟩) rfl rfl)
      (fun idx h => by
        cases h
        decide))
    sampleEnv

end Script
